import Mathlib

/-!
# Verification of the RoadExport data-export module

Shallow embedding of `src/roadexport/export.py` (value formatting, column
resolution, the CSV/JSON/JSONL/XML writers, the transformer pipeline and the
export coordinator), together with proofs settling the specification claims.

Python strings are modelled as Lean `String`/`List Char`; Python `dict`
records are modelled as ordered association lists (Python dicts preserve
insertion order); a raised exception is modelled as `Option.none`; the text
written to an output sink (`io.StringIO` or an opened file) is modelled as
the returned `String` component.
-/

/-- The opening curly-brace character (code point 123). -/
def lbChar : Char := Char.ofNat 123

/-- The closing curly-brace character (code point 125). -/
def rbChar : Char := Char.ofNat 125

/-- JSON whitespace characters (space, tab, newline, carriage return). -/
def isWsChar (c : Char) : Bool :=
  c = ' ' || c = '\t' || c = '\n' || c = '\r'

/-- The decimal digit character for `n < 10`. -/
def digitChar (n : Nat) : Char := Char.ofNat (48 + n)

/-- Fuel-bounded digit renderer (structural recursion so that concrete
values compute definitionally); `fuel = n + 1` always suffices. -/
def natDigitsAux : Nat → Nat → List Char
  | 0, _ => []
  | fuel + 1, n =>
    if n < 10 then [digitChar n]
    else natDigitsAux fuel (n / 10) ++ [digitChar (n % 10)]

/-- Decimal digits of a natural number, most significant first
(embeds Python's `str` on a non-negative `int`). -/
def natDigits (n : Nat) : List Char := natDigitsAux (n + 1) n

/-- Decimal rendering of a natural number as a string. -/
def natStr (n : Nat) : String := String.mk (natDigits n)

/-- Embeds Python's `str` on an `int` (standard decimal, `-` sign). -/
def intRepr (n : Int) : List Char :=
  match n with
  | Int.ofNat m => natDigits m
  | Int.negSucc m => '-' :: natDigits (m + 1)

/-- Zero-pad a number to two digits (as `strftime` codes `%m %d %H %M %S` do). -/
def pad2 (n : Nat) : String := if n < 10 then "0" ++ natStr n else natStr n

/-- Zero-pad a number to four digits (as `strftime` code `%Y` does). -/
def pad4 (n : Nat) : String :=
  if n < 10 then "000" ++ natStr n
  else if n < 100 then "00" ++ natStr n
  else if n < 1000 then "0" ++ natStr n
  else natStr n

/-- A `datetime.datetime` value (the module never reads sub-second fields). -/
structure Timestamp where
  year : Nat
  month : Nat
  day : Nat
  hour : Nat
  minute : Nat
  second : Nat
deriving DecidableEq

/-- Expansion of one `strftime` conversion code. The default configuration
only uses `%Y %m %d %H %M %S`; an unknown code is kept verbatim. -/
def strfCode (t : Timestamp) (c : Char) : String :=
  if c = 'Y' then pad4 t.year
  else if c = 'm' then pad2 t.month
  else if c = 'd' then pad2 t.day
  else if c = 'H' then pad2 t.hour
  else if c = 'M' then pad2 t.minute
  else if c = 'S' then pad2 t.second
  else if c = '%' then "%"
  else "%" ++ String.singleton c

/-- Character-level worker for `strftime`. -/
def strftimeAux (t : Timestamp) : List Char → List Char
  | [] => []
  | '%' :: c :: rest => (strfCode t c).data ++ strftimeAux t rest
  | c :: rest => c :: strftimeAux t rest

/-- Embeds `datetime.strftime` for the format codes the module relies on. -/
def strftime (fmt : String) (t : Timestamp) : String :=
  String.mk (strftimeAux t fmt.data)

/-- Embeds Python's `str(datetime)` (ISO format with a space separator),
which is what `json.dumps(..., default=str)` applies to a timestamp. -/
def pyStrTimestamp (t : Timestamp) : String :=
  pad4 t.year ++ "-" ++ pad2 t.month ++ "-" ++ pad2 t.day ++ " " ++
    pad2 t.hour ++ ":" ++ pad2 t.minute ++ ":" ++ pad2 t.second

/-- The dynamic values a record field can hold: `None`, `bool`, `int`,
`str`, `datetime`, nested `list`, nested `dict` (insertion-ordered). -/
inductive Value where
  | null : Value
  | bool : Bool → Value
  | int : Int → Value
  | str : String → Value
  | time : Timestamp → Value
  | list : List Value → Value
  | dict : List (String × Value) → Value

/-- A record: one Python dict, as an insertion-ordered association list. -/
abbrev Record := List (String × Value)

/-- The field names of a record, in insertion order (`list(d.keys())`). -/
def recordKeys (r : Record) : List String := r.map Prod.fst

mutual
/-- Parser-fuel measure of a value (used to budget the JSON parser). -/
def sizeV : Value → Nat
  | Value.list vs => 2 + sizeL vs
  | Value.dict kvs => 2 + sizeM kvs
  | _ => 1

/-- Fuel measure of a list of values. -/
def sizeL : List Value → Nat
  | [] => 0
  | v :: vs => sizeV v + 1 + sizeL vs

/-- Fuel measure of a list of object members. -/
def sizeM : List (String × Value) → Nat
  | [] => 0
  | kv :: kvs => sizeV kv.2 + 1 + sizeM kvs
end

mutual
/-- Whether a value contains a timestamp anywhere (such values make
`json.dumps` without `default=` raise `TypeError`). -/
def hasTimeV : Value → Bool
  | Value.time _ => true
  | Value.list vs => hasTimeL vs
  | Value.dict kvs => hasTimeM kvs
  | _ => false

/-- Whether a list of values contains a timestamp anywhere. -/
def hasTimeL : List Value → Bool
  | [] => false
  | v :: vs => hasTimeV v || hasTimeL vs

/-- Whether a member list contains a timestamp anywhere. -/
def hasTimeM : List (String × Value) → Bool
  | [] => false
  | kv :: kvs => hasTimeV kv.2 || hasTimeM kvs
end

/-- A hexadecimal digit character, lowercase (as CPython's encoder emits). -/
def hexDig (n : Nat) : Char :=
  if n < 10 then Char.ofNat (48 + n) else Char.ofNat (87 + n)

/-- A `\uXXXX` escape for a code unit below `0x10000`. -/
def uEsc (n : Nat) : List Char :=
  ['\\', 'u', hexDig (n / 4096 % 16), hexDig (n / 256 % 16),
    hexDig (n / 16 % 16), hexDig (n % 16)]

/-- JSON escape of one character, following CPython's
`json.encoder.py_encode_basestring_ascii`: short escapes for the usual
control characters, raw printable ASCII, `\uXXXX` otherwise, with
surrogate pairs for astral code points. -/
def escChar (c : Char) : List Char :=
  if c = '"' then ['\\', '"']
  else if c = '\\' then ['\\', '\\']
  else if c = '\n' then ['\\', 'n']
  else if c = '\r' then ['\\', 'r']
  else if c = '\t' then ['\\', 't']
  else if c.toNat = 8 then ['\\', 'b']
  else if c.toNat = 12 then ['\\', 'f']
  else if 32 ≤ c.toNat ∧ c.toNat ≤ 126 then [c]
  else if c.toNat < 65536 then uEsc c.toNat
  else uEsc (55296 + (c.toNat - 65536) / 1024) ++ uEsc (56320 + (c.toNat - 65536) % 1024)

/-- JSON string literal for a Python string (double-quoted, escaped). -/
def jsonQuoteC (s : String) : List Char :=
  '"' :: (s.data.flatMap escChar ++ ['"'])

/-- Newline followed by `w * lvl` spaces (the indentation step of
`json.dumps(..., indent=w)` at nesting level `lvl`). -/
def nlInd (w lvl : Nat) : List Char := '\n' :: List.replicate (w * lvl) ' '

/-- Join rendered items with a separator. -/
def joinItems (sep : List Char) : List (List Char) → List Char
  | [] => []
  | [x] => x
  | x :: y :: t => x ++ sep ++ joinItems sep (y :: t)

/-- The whitespace `json.dumps` places after the opening bracket, after each
comma, and before the closing bracket: nothing/one space/nothing in compact
mode, newline-plus-indent in indented mode. -/
def wsParams (ind : Option Nat) (lvl : Nat) : List Char × List Char × List Char :=
  match ind with
  | none => ([], [' '], [])
  | some w => (nlInd w (lvl + 1), nlInd w (lvl + 1), nlInd w lvl)

/-- Rendering of a non-empty bracketed item sequence. -/
def renderSeq (op cl : Char) (ind : Option Nat) (lvl : Nat)
    (items : List (List Char)) : List Char :=
  let p := wsParams ind lvl
  op :: (p.1 ++ joinItems (',' :: p.2.1) items ++ p.2.2 ++ [cl])

/-- Rendering of a bracketed item sequence; an empty container renders as
the two brackets alone in both modes, exactly as `json.dumps` does. -/
def renderCont (op cl : Char) (ind : Option Nat) (lvl : Nat)
    (items : List (List Char)) : List Char :=
  if items.isEmpty then [op, cl] else renderSeq op cl ind lvl items

mutual
/-- Embeds `json.dumps(v, indent=ind, default=str if dflt else None)` at
nesting level `lvl`. `none` models the `TypeError` raised on a timestamp
when no `default=` is supplied. Separators follow the `json` module's
defaults: `", "`/`": "` compact, `","`/`": "` when indented. -/
def dumpsV (ind : Option Nat) (dflt : Bool) (lvl : Nat) : Value → Option (List Char)
  | Value.null => some ['n', 'u', 'l', 'l']
  | Value.bool b => some (if b then ['t', 'r', 'u', 'e'] else ['f', 'a', 'l', 's', 'e'])
  | Value.int n => some (intRepr n)
  | Value.str s => some (jsonQuoteC s)
  | Value.time t => if dflt then some (jsonQuoteC (pyStrTimestamp t)) else none
  | Value.list vs =>
    match dumpsL ind dflt (lvl + 1) vs with
    | some items => some (renderCont '[' ']' ind lvl items)
    | none => none
  | Value.dict kvs =>
    match dumpsM ind dflt (lvl + 1) kvs with
    | some items => some (renderCont lbChar rbChar ind lvl items)
    | none => none

/-- Renders each element of a JSON array. -/
def dumpsL (ind : Option Nat) (dflt : Bool) (lvl : Nat) : List Value → Option (List (List Char))
  | [] => some []
  | v :: vs =>
    match dumpsV ind dflt lvl v, dumpsL ind dflt lvl vs with
    | some c, some cs => some (c :: cs)
    | _, _ => none

/-- Renders each `"key": value` member of a JSON object. -/
def dumpsM (ind : Option Nat) (dflt : Bool) (lvl : Nat) : List (String × Value) → Option (List (List Char))
  | [] => some []
  | kv :: kvs =>
    match dumpsV ind dflt lvl kv.2, dumpsM ind dflt lvl kvs with
    | some c, some cs => some ((jsonQuoteC kv.1 ++ ':' :: ' ' :: c) :: cs)
    | _, _ => none
end

/-- Drop leading JSON whitespace. -/
def skipWs : List Char → List Char
  | [] => []
  | c :: r => if isWsChar c then skipWs r else c :: r

/-- Value of a hexadecimal digit character, if it is one. -/
def hexVal (c : Char) : Option Nat :=
  if 48 ≤ c.toNat ∧ c.toNat ≤ 57 then some (c.toNat - 48)
  else if 97 ≤ c.toNat ∧ c.toNat ≤ 102 then some (c.toNat - 87)
  else if 65 ≤ c.toNat ∧ c.toNat ≤ 70 then some (c.toNat - 55)
  else none

/-- Decoded form of a single-character JSON escape. -/
def escDecode (c : Char) : Option Char :=
  if c = '"' then some '"'
  else if c = '\\' then some '\\'
  else if c = '/' then some '/'
  else if c = 'b' then some (Char.ofNat 8)
  else if c = 'f' then some (Char.ofNat 12)
  else if c = 'n' then some '\n'
  else if c = 'r' then some '\r'
  else if c = 't' then some '\t'
  else none

/-- Scan the body of a JSON string literal (the opening quote already
consumed), returning the decoded content and the input after the closing
quote. -/
def parseStrBody : List Char → Option (String × List Char)
  | [] => none
  | c :: r =>
    if c = '"' then some ("", r)
    else if c = '\\' then
      match r with
      | [] => none
      | e :: r2 =>
        if e = 'u' then
          match r2 with
          | h1 :: h2 :: h3 :: h4 :: r3 =>
            match hexVal h1, hexVal h2, hexVal h3, hexVal h4 with
            | some a, some b, some c3, some d =>
              match parseStrBody r3 with
              | some (s, rest) =>
                some (String.singleton (Char.ofNat (a * 4096 + b * 256 + c3 * 16 + d)) ++ s, rest)
              | none => none
            | _, _, _, _ => none
          | _ => none
        else
          match escDecode e with
          | some d =>
            match parseStrBody r2 with
            | some (s, rest) => some (String.singleton d ++ s, rest)
            | none => none
          | none => none
    else
      match parseStrBody r with
      | some (s, rest) => some (String.singleton c ++ s, rest)
      | none => none

/-- Scan a JSON integer (an optional minus sign and a digit run). -/
def parseNumber (s : List Char) : Option (Value × List Char) :=
  match s with
  | [] => none
  | c :: r =>
    if c = '-' then
      let ds := r.takeWhile Char.isDigit
      if ds.isEmpty then none
      else some (Value.int (-(Int.ofNat (digitsToNat ds))), r.dropWhile Char.isDigit)
    else
      let ds := s.takeWhile Char.isDigit
      if ds.isEmpty then none
      else some (Value.int (Int.ofNat (digitsToNat ds)), s.dropWhile Char.isDigit)
where
  /-- Numeric value of a digit run. -/
  digitsToNat (ds : List Char) : Nat :=
    ds.foldl (fun a c => a * 10 + (c.toNat - 48)) 0

mutual
/-- Fuel-bounded JSON value parser. -/
def parseVal : Nat → List Char → Option (Value × List Char)
  | 0, _ => none
  | n + 1, s0 =>
    match skipWs s0 with
    | [] => none
    | c :: r =>
      if c = 'n' then
        match r with
        | 'u' :: 'l' :: 'l' :: r2 => some (Value.null, r2)
        | _ => none
      else if c = 't' then
        match r with
        | 'r' :: 'u' :: 'e' :: r2 => some (Value.bool true, r2)
        | _ => none
      else if c = 'f' then
        match r with
        | 'a' :: 'l' :: 's' :: 'e' :: r2 => some (Value.bool false, r2)
        | _ => none
      else if c = '"' then
        match parseStrBody r with
        | some (s, r2) => some (Value.str s, r2)
        | none => none
      else if c = '[' then
        match parseItems n r with
        | some (vs, r2) => some (Value.list vs, r2)
        | none => none
      else if c = lbChar then
        match parseMembers n r with
        | some (kvs, r2) => some (Value.dict kvs, r2)
        | none => none
      else parseNumber (c :: r)

/-- Parse the items of a JSON array (opening bracket already consumed). -/
def parseItems : Nat → List Char → Option (List Value × List Char)
  | 0, _ => none
  | n + 1, s0 =>
    match skipWs s0 with
    | [] => none
    | c :: r =>
      if c = ']' then some ([], r)
      else
        match parseVal n (c :: r) with
        | some (v, r2) =>
          match parseItemsRest n r2 with
          | some (vs, r3) => some (v :: vs, r3)
          | none => none
        | none => none

/-- Parse `, item` continuations of a JSON array up to the closing bracket. -/
def parseItemsRest : Nat → List Char → Option (List Value × List Char)
  | 0, _ => none
  | n + 1, s0 =>
    match skipWs s0 with
    | [] => none
    | c :: r =>
      if c = ']' then some ([], r)
      else if c = ',' then
        match parseVal n r with
        | some (v, r2) =>
          match parseItemsRest n r2 with
          | some (vs, r3) => some (v :: vs, r3)
          | none => none
        | none => none
      else none

/-- Parse the members of a JSON object (opening brace already consumed). -/
def parseMembers : Nat → List Char → Option (List (String × Value) × List Char)
  | 0, _ => none
  | n + 1, s0 =>
    match skipWs s0 with
    | [] => none
    | c :: r =>
      if c = rbChar then some ([], r)
      else if c = '"' then
        match parseStrBody r with
        | some (k, r2) =>
          match skipWs r2 with
          | ':' :: r3 =>
            match parseVal n r3 with
            | some (v, r4) =>
              match parseMembersRest n r4 with
              | some (kvs, r5) => some ((k, v) :: kvs, r5)
              | none => none
            | none => none
          | _ => none
        | none => none
      else none

/-- Parse `, "key": value` continuations of a JSON object. -/
def parseMembersRest : Nat → List Char → Option (List (String × Value) × List Char)
  | 0, _ => none
  | n + 1, s0 =>
    match skipWs s0 with
    | [] => none
    | c :: r =>
      if c = rbChar then some ([], r)
      else if c = ',' then
        match skipWs r with
        | '"' :: r2 =>
          match parseStrBody r2 with
          | some (k, r3) =>
            match skipWs r3 with
            | ':' :: r4 =>
              match parseVal n r4 with
              | some (v, r5) =>
                match parseMembersRest n r5 with
                | some (kvs, r6) => some ((k, v) :: kvs, r6)
                | none => none
              | none => none
            | _ => none
          | none => none
        | _ => none
      else none
end

/-- Parse a complete JSON document: one value followed only by whitespace.
The fuel `2 * length + 2` always suffices for output of `dumpsV`. -/
def parseJson (s : String) : Option Value :=
  match parseVal (2 * s.data.length + 2) s.data with
  | some (v, rest) => if (skipWs rest).isEmpty then some v else none
  | none => none

/-- The `ExportFormat` string enum (`csv`, `json`, `jsonl`, `tsv`, `xml`). -/
inductive ExportFormat where
  | csv : ExportFormat
  | json : ExportFormat
  | jsonl : ExportFormat
  | tsv : ExportFormat
  | xml : ExportFormat
deriving DecidableEq

/-- The `ExportConfig` dataclass with its field defaults. The delimiter is
a single character (the `csv` module requires a one-character delimiter). -/
structure ExportConfig where
  format : ExportFormat := ExportFormat.csv
  columns : Option (List String) := none
  column_labels : Option (List (String × String)) := none
  delimiter : Char := ','
  include_header : Bool := true
  date_format : String := "%Y-%m-%d %H:%M:%S"
  null_value : String := ""
  encoding : String := "utf-8"
  batch_size : Nat := 1000
deriving DecidableEq

/-- `ExportConfig()` with every default. -/
def defaultConfig : ExportConfig := {}

/-- The `ExportResult` dataclass (`duration_ms`, a float the module never
sets to a nonzero value, is omitted from the model). -/
structure ExportResult where
  success : Bool
  row_count : Nat := 0
  byte_count : Nat := 0
  error : Option String := none
deriving DecidableEq

/-- Embeds `DataFormatter.format_value`. `none` models a propagated
exception: `json.dumps(value)` is called without `default=`, so a nested
timestamp raises `TypeError`. -/
def formatValue (cfg : ExportConfig) : Value → Option String
  | Value.null => some cfg.null_value
  | Value.time t => some (strftime cfg.date_format t)
  | Value.bool b => some (if b then "true" else "false")
  | Value.list vs => (dumpsV none false 0 (Value.list vs)).map String.mk
  | Value.dict kvs => (dumpsV none false 0 (Value.dict kvs)).map String.mk
  | Value.int n => some (String.mk (intRepr n))
  | Value.str s => some s

/-- `none`-propagating map over a list (a Python loop in which any raised
exception aborts the whole call). -/
def mapMO (f : α → Option β) : List α → Option (List β)
  | [] => some []
  | a :: as =>
    match f a, mapMO f as with
    | some b, some bs => some (b :: bs)
    | _, _ => none

/-- Embeds `DataFormatter.format_row`: `row.get(col)` yields `None` for a
missing key, then each cell is formatted. -/
def formatRow (cfg : ExportConfig) (row : Record) (columns : List String) :
    Option (List String) :=
  mapMO (fun c => formatValue cfg ((row.lookup c).getD Value.null)) columns

/-- Embeds the Python truthiness idiom `config.columns or fallback`:
both `None` and an (explicit) empty list select the fallback. -/
def pyOrCols (opt : Option (List String)) (fallback : List String) : List String :=
  match opt with
  | none => fallback
  | some cs => if cs.isEmpty then fallback else cs

/-- Column resolution as the writers perform it:
`config.columns or (list(data[0].keys()) if data else [])`. -/
def resolveColumns (cfg : ExportConfig) (data : List Record) : List String :=
  pyOrCols cfg.columns (match data with
    | [] => []
    | r :: _ => recordKeys r)

/-- Display label of one column:
`config.column_labels.get(c, c) if config.column_labels else c`.
(An empty-dict `column_labels` is falsy in Python; `lookup` on the empty
list returns the same fallback, so the truthiness test is absorbed.) -/
def resolveLabel (cfg : ExportConfig) (c : String) : String :=
  match cfg.column_labels with
  | none => c
  | some m => (m.lookup c).getD c

/-- Embeds the Python truthiness test `if self.config.columns:` used by the
JSON exporter before column filtering. -/
def pyTruthyCols (opt : Option (List String)) : Bool :=
  match opt with
  | none => false
  | some cs => !cs.isEmpty

/-- Dict-comprehension column filter:
`{k: v for k, v in row.items() if k in columns}` (insertion order kept). -/
def filterRowCols (cols : List String) (row : Record) : Record :=
  row.filter (fun kv => cols.contains kv.1)

/-- Minimal (`QUOTE_MINIMAL`) quoting of one cell by `csv.writer`: a cell
containing the delimiter, a double quote, or a line-terminator character is
wrapped in double quotes with inner quotes doubled. -/
def csvQuoteCell (d : Char) (s : String) : String :=
  if s.data.any (fun c => c = d || c = '"' || c = '\r' || c = '\n') then
    "\"" ++ String.mk (s.data.flatMap (fun c => if c = '"' then ['"', '"'] else [c])) ++ "\""
  else s

/-- One `csv.writer.writerow` call: delimiter-joined quoted cells plus the
default `excel` dialect line terminator, which is CRLF (`"\r\n"`). A row
consisting of a single empty field is written as `""` (the `csv` module's
special case, so the row does not read back as an empty record). -/
def csvRow (d : Char) (cells : List String) : String :=
  match cells with
  | [""] => "\"\"" ++ "\r\n"
  | _ => String.intercalate (String.singleton d) (cells.map (csvQuoteCell d)) ++ "\r\n"

/-- Embeds `CSVExporter.export` (the buffered delimited writer). Returns the
result object and the text written to the sink; `none` models a propagated
formatting exception. -/
def csvExport (cfg : ExportConfig) (data : List Record) :
    Option (ExportResult × String) :=
  match data with
  | [] => some ({ success := true, row_count := 0 }, "")
  | _ :: _ =>
    let columns := resolveColumns cfg data
    let labels := columns.map (resolveLabel cfg)
    let header := if cfg.include_header then csvRow cfg.delimiter labels else ""
    match mapMO (fun r => formatRow cfg r columns) data with
    | some rows =>
      some ({ success := true, row_count := data.length },
        header ++ String.join (rows.map (csvRow cfg.delimiter)))
    | none => none

/-- Embeds `CSVExporter.export_stream`: the caller supplies the column list;
the header is written unconditionally of the input being empty. The consumed
generator is modelled by the (finite) list of records it yields. -/
def csvExportStream (cfg : ExportConfig) (data : List Record)
    (columns : List String) : Option (ExportResult × String) :=
  let labels := columns.map (resolveLabel cfg)
  let header := if cfg.include_header then csvRow cfg.delimiter labels else ""
  match mapMO (fun r => formatRow cfg r columns) data with
  | some rows =>
    some ({ success := true, row_count := data.length },
      header ++ String.join (rows.map (csvRow cfg.delimiter)))
  | none => none

/-- Embeds `JSONExporter.export`: optional column filtering, then one
`json.dumps(filtered, indent=2 if pretty else None, default=str)` call. -/
def jsonExport (cfg : ExportConfig) (data : List Record) (pretty : Bool) :
    Option (ExportResult × String) :=
  let filtered :=
    if pyTruthyCols cfg.columns then
      data.map (filterRowCols (cfg.columns.getD []))
    else data
  match dumpsV (if pretty then some 2 else none) true 0
      (Value.list (filtered.map Value.dict)) with
  | some out => some ({ success := true, row_count := data.length }, String.mk out)
  | none => none

/-- Embeds `JSONExporter.export_jsonl`: one compact `json.dumps(row,
default=str)` plus a newline per record. -/
def jsonlExport (cfg : ExportConfig) (data : List Record) :
    Option (ExportResult × String) :=
  match mapMO (fun r =>
      dumpsV none true 0 (Value.dict
        (if pyTruthyCols cfg.columns then filterRowCols (cfg.columns.getD []) r else r)))
      data with
  | some rows =>
    some ({ success := true, row_count := data.length },
      String.join (rows.map (fun cs => String.mk cs ++ "\n")))
  | none => none

/-- Embeds `str.replace(pat, repl)` for a one-character pattern (the only
shape the module uses), at the character-list level. -/
def replaceChar (pat : Char) (repl : List Char) : List Char → List Char
  | [] => []
  | c :: rest =>
    if c = pat then repl ++ replaceChar pat repl rest
    else c :: replaceChar pat repl rest

/-- The XML text escape as the source writes it:
`value.replace("&", "&amp;").replace("<", "&lt;").replace(">", "&gt;")`. -/
def escapeXml (s : String) : String :=
  String.mk (replaceChar '>' ("&gt;".data)
    (replaceChar '<' ("&lt;".data)
      (replaceChar '&' ("&amp;".data) s.data)))

/-- Per-character statement of the intended XML escaping (used to show the
sequential replaces do not double-escape). -/
def escXmlChar (c : Char) : List Char :=
  if c = '&' then "&amp;".data
  else if c = '<' then "&lt;".data
  else if c = '>' then "&gt;".data
  else [c]

/-- Spec-side XML escape: each character escaped independently. -/
def specEscapeXml (s : String) : String :=
  String.mk (s.data.flatMap escXmlChar)

/-- The XML declaration line written by `XMLExporter.export`. -/
def xmlDecl (cfg : ExportConfig) : String :=
  "<?xml version=\"1.0\" encoding=\"" ++ cfg.encoding ++ "\"?>\n"

/-- One row element of the XML output: child elements are named by the
field name and hold the escaped formatted value. -/
def xmlRowOut (cfg : ExportConfig) (rowel : String) (columns : List String)
    (r : Record) : Option String :=
  match mapMO (fun c =>
      (formatValue cfg ((r.lookup c).getD Value.null)).map (fun v =>
        "    <" ++ c ++ ">" ++ escapeXml v ++ "</" ++ c ++ ">\n")) columns with
  | some cells =>
    some ("  <" ++ rowel ++ ">\n" ++ String.join cells ++ "  </" ++ rowel ++ ">\n")
  | none => none

/-- Embeds `XMLExporter.export` with its configurable root and row element
names (defaults `"data"` and `"row"`). -/
def xmlExport (cfg : ExportConfig) (root rowel : String) (data : List Record) :
    Option (ExportResult × String) :=
  let columns := resolveColumns cfg data
  match mapMO (xmlRowOut cfg rowel columns) data with
  | some rows =>
    some ({ success := true, row_count := data.length },
      xmlDecl cfg ++ "<" ++ root ++ ">\n" ++ String.join rows ++
        "</" ++ root ++ ">")
  | none => none

/-- A registered transformer: a record-to-record function. -/
abbrev Transformer := Record → Record

/-- The inner loop of `ExportManager._transform`: apply each transformer in
registration order to one record. -/
def applyTransformers (ts : List Transformer) (r : Record) : Record :=
  ts.foldl (fun row t => t row) r

/-- Embeds `ExportManager._transform`: identity when no transformers are
registered, otherwise the per-record chain in input order. -/
def mTransform (ts : List Transformer) (data : List Record) : List Record :=
  if ts.isEmpty then data else data.map (applyTransformers ts)

/-- Embeds `ExportManager.export_csv` (in-memory entry point): the manager
returns only the accumulated text, discarding the writer's result object. -/
def mExportCsv (ts : List Transformer) (data : List Record)
    (cfg : ExportConfig) : Option String :=
  (csvExport cfg (mTransform ts data)).map Prod.snd

/-- Embeds `ExportManager.export_json`. -/
def mExportJson (ts : List Transformer) (data : List Record)
    (cfg : ExportConfig) (pretty : Bool) : Option String :=
  (jsonExport cfg (mTransform ts data) pretty).map Prod.snd

/-- Embeds `ExportManager.export_jsonl`. -/
def mExportJsonl (ts : List Transformer) (data : List Record)
    (cfg : ExportConfig) : Option String :=
  (jsonlExport cfg (mTransform ts data)).map Prod.snd

/-- Embeds `ExportManager.export_xml`. -/
def mExportXml (ts : List Transformer) (data : List Record)
    (cfg : ExportConfig) : Option String :=
  (xmlExport cfg "data" "row" (mTransform ts data)).map Prod.snd

/-- Embeds `ExportManager.export_to_file`: the `if/elif` dispatch on
`config.format`, falling through to a failed result with nothing written.
(The JSON branch passes `pretty=True`.) The string component models the
bytes written to the opened destination. -/
def exportToFile (ts : List Transformer) (cfg : ExportConfig)
    (data : List Record) : Option (ExportResult × String) :=
  if cfg.format = ExportFormat.csv then csvExport cfg (mTransform ts data)
  else if cfg.format = ExportFormat.json then jsonExport cfg (mTransform ts data) true
  else if cfg.format = ExportFormat.jsonl then jsonlExport cfg (mTransform ts data)
  else if cfg.format = ExportFormat.xml then xmlExport cfg "data" "row" (mTransform ts data)
  else some ({ success := false, error := some "Unknown format" }, "")

/-- A list of whitespace characters only (padding the JSON parser may skip). -/
def isWsL (l : List Char) : Prop := ∀ c ∈ l, isWsChar c = true

/-- The first character, if any, does not extend a digit run (so a number
that ends right before `l` is tokenized exactly). -/
def nonDigitHead (l : List Char) : Prop := ∀ c, l.head? = some c → c.isDigit = false

/-- The parsed value has the same top-level container shape and item count
as the serialized one (all the round-trip facts the claims need). -/
def shapeMatch (v w : Value) : Prop :=
  (∀ vs, v = Value.list vs → ∃ ws, w = Value.list ws ∧ ws.length = vs.length) ∧
  (∀ kvs, v = Value.dict kvs → ∃ ws, w = Value.dict ws ∧ ws.length = kvs.length)

/-- The tail of a rendered item sequence after its first item: each further
item preceded by a comma and the separator padding, then `tail`. -/
def restJoin (sep : List Char) (outs : List (List Char)) (tail : List Char) : List Char :=
  outs.foldr (fun o acc => ',' :: (sep ++ (o ++ acc))) tail

/-- Total length of a list of rendered items. -/
def sumLen (outs : List (List Char)) : Nat := (outs.map List.length).sum

/-- The reference timestamp used in concrete scenarios. -/
def refTime : Timestamp := ⟨2024, 1, 2, 3, 4, 5⟩

/-- The record list of the §8 CSV scenario. -/
def c5Data : List Record :=
  [[("id", Value.int 1), ("name", Value.str "Alice")],
   [("id", Value.int 2), ("name", Value.str "Bob")]]

/-- The configuration of the second §8 CSV scenario. -/
def c5Cfg : ExportConfig :=
  { defaultConfig with columns := some ["name"], column_labels := some [("name", "Name")] }

/-- The text of a string-valued field (empty for other shapes). -/
def strOfVal : Option Value → String
  | some (Value.str s) => s
  | _ => ""

/-- The §8 scenario transformer: derives `full_name` from existing fields
and appends it to the record (Python dict insertion order). -/
def addFullName (r : Record) : Record :=
  r ++ [("full_name", Value.str (strOfVal (r.lookup "first") ++ strOfVal (r.lookup "last")))]

/-- The record list for the transformer scenario. -/
def c6Data : List Record :=
  [[("first", Value.str "Ada"), ("last", Value.str "Lovelace")]]

/-- A record whose field value contains all three XML-significant characters. -/
def c8Data : List Record := [[("x", Value.str "<b>&</b>")]]

/-- A small record list for the JSON witnesses. -/
def c7Data : List Record := [[("a", Value.int 1)]]

/-! ## Generic helper lemmas -/

/-- `mapMO` preserves length when it succeeds. -/
theorem mapMO_length {f : α → Option β} : ∀ {l : List α} {l' : List β},
    mapMO f l = some l' → l'.length = l.length := by
  intro l
  induction l with
  | nil => intro l' h; simp [mapMO] at h; simp [← h]
  | cons a as ih =>
    intro l' h
    simp only [mapMO] at h
    cases hfa : f a with
    | none => rw [hfa] at h; simp at h
    | some b =>
      rw [hfa] at h
      cases hms : mapMO f as with
      | none => rw [hms] at h; simp at h
      | some bs =>
        rw [hms] at h
        simp at h
        subst h
        simp [ih hms]

/-- Every element produced by a successful `mapMO` comes from an input
element. -/
theorem mapMO_mem {f : α → Option β} : ∀ {l : List α} {l' : List β},
    mapMO f l = some l' → ∀ b ∈ l', ∃ a ∈ l, f a = some b := by
  intro l
  induction l with
  | nil => intro l' h; simp [mapMO] at h; subst h; simp
  | cons a as ih =>
    intro l' h
    simp only [mapMO] at h
    cases hfa : f a with
    | none => rw [hfa] at h; simp at h
    | some b =>
      rw [hfa] at h
      cases hms : mapMO f as with
      | none => rw [hms] at h; simp at h
      | some bs =>
        rw [hms] at h
        simp at h
        subst h
        intro x hx
        rcases List.mem_cons.mp hx with rfl | hx'
        · exact ⟨a, by simp, hfa⟩
        · rcases ih hms x hx' with ⟨a', ha', hfa'⟩
          exact ⟨a', by simp [ha'], hfa'⟩

/-- Inversion for `mapMO` on a cons cell. -/
theorem mapMO_cons_inv {f : α → Option β} {a : α} {as : List α} {l' : List β}
    (h : mapMO f (a :: as) = some l') :
    ∃ b bs, f a = some b ∧ mapMO f as = some bs ∧ l' = b :: bs := by
  simp only [mapMO] at h
  cases hfa : f a with
  | none => rw [hfa] at h; simp at h
  | some b =>
    rw [hfa] at h
    cases hms : mapMO f as with
    | none => rw [hms] at h; simp at h
    | some bs => rw [hms] at h; simp at h; exact ⟨b, bs, rfl, rfl, h.symm⟩

/-- Skipping whitespace ignores a whitespace prefix. -/
theorem skipWs_ws_append {w : List Char} (hw : isWsL w) (x : List Char) :
    skipWs (w ++ x) = skipWs x := by
  induction w with
  | nil => simp
  | cons c cs ih =>
    have hc : isWsChar c = true := hw c (by simp)
    have hcs : isWsL cs := fun d hd => hw d (by simp [hd])
    simp [skipWs, hc, ih hcs]

/-- Skipping whitespace stops at a non-whitespace head. -/
theorem skipWs_not_ws {c : Char} (hc : isWsChar c = false) (x : List Char) :
    skipWs (c :: x) = c :: x := by
  simp [skipWs, hc]

/-- `takeWhile`/`dropWhile` split exactly at a satisfied prefix followed by
a failing head. -/
theorem span_exact {p : Char → Bool} : ∀ {xs ys : List Char},
    (∀ c ∈ xs, p c = true) → (∀ c, ys.head? = some c → p c = false) →
    (xs ++ ys).takeWhile p = xs ∧ (xs ++ ys).dropWhile p = ys := by
  intro xs
  induction xs with
  | nil =>
    intro ys _ hy
    cases ys with
    | nil => simp
    | cons y t =>
      have := hy y (by simp)
      simp [List.takeWhile, List.dropWhile, this]
  | cons x t ih =>
    intro ys hx hy
    have hpx : p x = true := hx x (by simp)
    have ht : ∀ c ∈ t, p c = true := fun c hc => hx c (by simp [hc])
    have := ih ht hy
    simp [List.takeWhile, List.dropWhile, hpx, this.1, this.2]

/-- The length of a joined item list. -/
theorem joinItems_length (sep : List Char) : ∀ (items : List (List Char)),
    (joinItems sep items).length = sumLen items + (items.length - 1) * sep.length := by
  intro items
  induction items with
  | nil => simp [joinItems, sumLen]
  | cons x t ih =>
    cases t with
    | nil => simp [joinItems, sumLen]
    | cons y t2 =>
      simp only [joinItems, List.length_append, ih]
      simp [sumLen]
      ring

/-- Membership in a joined item list comes from an item or the separator. -/
theorem mem_joinItems {sep : List Char} {c : Char} : ∀ {items : List (List Char)},
    c ∈ joinItems sep items → c ∈ sep ∨ ∃ i ∈ items, c ∈ i := by
  intro items
  induction items with
  | nil => intro h; simp [joinItems] at h
  | cons x t ih =>
    cases t with
    | nil => intro h; simp [joinItems] at h; exact Or.inr ⟨x, by simp, h⟩
    | cons y t2 =>
      intro h
      simp only [joinItems, List.mem_append] at h
      rcases h with (h | h) | h
      · exact Or.inr ⟨x, by simp, h⟩
      · exact Or.inl h
      · rcases ih h with h | ⟨i, hi, hci⟩
        · exact Or.inl h
        · exact Or.inr ⟨i, by simp [hi], hci⟩

/-- A cons-shaped unfolding of `joinItems` with an explicit tail appended. -/
theorem joinItems_cons_tail (sep : List Char) : ∀ (o : List Char)
    (os : List (List Char)) (tail : List Char),
    joinItems (',' :: sep) (o :: os) ++ tail = o ++ restJoin sep os tail := by
  intro o os
  induction os generalizing o with
  | nil => intro tail; simp [joinItems, restJoin]
  | cons y t ih =>
    intro tail
    simp only [joinItems, restJoin, List.foldr]
    have := ih y tail
    simp only [restJoin] at this
    simp [this]

/-- `hexVal` recovers the value of a lowercase hex digit. -/
theorem hexVal_hexDig : ∀ m : Nat, m < 16 → hexVal (hexDig m) = some m := by
  intro m h
  interval_cases m <;> decide

/-- Bundle of facts about a decimal digit character: it is none of the
parser's dispatch characters and is not whitespace. -/
theorem digit_char_props {c : Char} (h : c.isDigit = true) :
    isWsChar c = false ∧ c ≠ 'n' ∧ c ≠ 't' ∧ c ≠ 'f' ∧ c ≠ '"' ∧
    c ≠ '[' ∧ c ≠ lbChar ∧ c ≠ ']' ∧ c ≠ rbChar ∧ c ≠ '-' ∧
    c ≠ ',' ∧ c ≠ '\n' := by
  have ne : ∀ d : Char, d.isDigit = false → c ≠ d := by
    intro d hd heq
    rw [heq] at h
    exact absurd (hd.symm.trans h) (by decide)
  have h1 := ne ' ' (by decide)
  have h2 := ne '\t' (by decide)
  have h3 := ne '\n' (by decide)
  have h4 := ne '\r' (by decide)
  refine ⟨?_, ne 'n' (by decide), ne 't' (by decide), ne 'f' (by decide),
    ne '"' (by decide), ne '[' (by decide), ne lbChar (by decide),
    ne ']' (by decide), ne rbChar (by decide), ne '-' (by decide),
    ne ',' (by decide), h3⟩
  simp [isWsChar, h1, h2, h3, h4]

/-- Every character the fuel-bounded digit renderer emits is a digit. -/
theorem natDigitsAux_all_digits : ∀ (fuel n : Nat), ∀ c ∈ natDigitsAux fuel n, c.isDigit = true := by
  intro fuel
  induction fuel with
  | zero => intro n c hc; simp [natDigitsAux] at hc
  | succ f ih =>
    intro n c hc
    rw [natDigitsAux] at hc
    by_cases h : n < 10
    · rw [if_pos h] at hc
      simp at hc
      subst hc
      unfold digitChar
      interval_cases n <;> decide
    · rw [if_neg h] at hc
      rcases List.mem_append.mp hc with hc | hc
      · exact ih (n / 10) c hc
      · simp at hc
        subst hc
        unfold digitChar
        have : n % 10 < 10 := Nat.mod_lt _ (by omega)
        interval_cases hm : (n % 10) <;> decide

/-- Every character of a rendered natural number is a decimal digit. -/
theorem natDigits_all_digits : ∀ (n : Nat), ∀ c ∈ natDigits n, c.isDigit = true :=
  fun n => natDigitsAux_all_digits (n + 1) n

/-- A rendered natural number is never empty. -/
theorem natDigits_ne_nil (n : Nat) : natDigits n ≠ [] := by
  rw [natDigits, natDigitsAux]
  by_cases h : n < 10
  · rw [if_pos h]; simp
  · rw [if_neg h]; simp

/-- A rendered natural number starts with a decimal digit. -/
theorem natDigits_head : ∀ (n : Nat), ∃ c t, natDigits n = c :: t ∧ c.isDigit = true := by
  intro n
  cases hd : natDigits n with
  | nil => exact absurd hd (natDigits_ne_nil n)
  | cons c t =>
    exact ⟨c, t, rfl, natDigits_all_digits n c (by rw [hd]; simp)⟩

/-- The three padding components inserted around items are whitespace. -/
theorem wsParams_ws (ind : Option Nat) (lvl : Nat) :
    isWsL (wsParams ind lvl).1 ∧ isWsL (wsParams ind lvl).2.1 ∧ isWsL (wsParams ind lvl).2.2 := by
  cases ind with
  | none =>
    refine ⟨?_, ?_, ?_⟩ <;> intro c hc <;> simp [wsParams] at hc
    subst hc; decide
  | some w =>
    have hnl : ∀ lvl2, isWsL (nlInd w lvl2) := by
      intro lvl2 c hc
      simp [nlInd] at hc
      rcases hc with rfl | ⟨_, rfl⟩ <;> decide
    exact ⟨hnl _, hnl _, hnl _⟩

/-- Whitespace characters do not extend a digit run. -/
theorem ws_not_digit {c : Char} (h : isWsChar c = true) : c.isDigit = false := by
  simp only [isWsChar, Bool.or_eq_true] at h
  rcases h with ((h | h) | h) | h <;>
    · rw [decide_eq_true_iff] at h
      subst h
      decide

/-- The empty list is whitespace-only. -/
theorem isWsL_nil : isWsL [] := by intro c hc; simp at hc

/-- A single space is whitespace-only. -/
theorem isWsL_space : isWsL [' '] := by
  intro c hc; simp at hc; subst hc; decide

/-- The empty continuation has no digit head. -/
theorem nonDigitHead_nil : nonDigitHead [] := by intro c hc; simp at hc

/-- A continuation headed by a known non-digit character. -/
theorem nonDigitHead_cons {c : Char} (h : c.isDigit = false) (l : List Char) :
    nonDigitHead (c :: l) := by
  intro d hd; simp at hd; subst hd; exact h

/-- A whitespace-only list followed by anything: its head (if inside the
whitespace) or the head of the continuation decides the digit test. -/
theorem nonDigitHead_ws_append {w : List Char} (hw : isWsL w) {l : List Char}
    (hl : nonDigitHead l) : nonDigitHead (w ++ l) := by
  cases w with
  | nil => simpa using hl
  | cons c t =>
    intro d hd
    simp at hd
    subst hd
    exact ws_not_digit (hw c (by simp))

/-- Consuming one short escape sequence inside a string body. -/
theorem parseStrBody_esc2 (e d : Char) {x : List Char} {s : String} {r : List Char}
    (he : escDecode e = some d) (hu : e ≠ 'u') (hx : parseStrBody x = some (s, r)) :
    ∃ s2, parseStrBody ('\\' :: e :: x) = some (s2, r) := by
  refine ⟨String.singleton d ++ s, ?_⟩
  rw [parseStrBody.eq_def]
  simp [hu, he, hx]

/-- Consuming one `\uXXXX` escape sequence inside a string body. -/
theorem parseStrBody_uEsc_step (n : Nat) {x : List Char} {s : String} {r : List Char}
    (hx : parseStrBody x = some (s, r)) :
    ∃ s2, parseStrBody (uEsc n ++ x) = some (s2, r) := by
  have e1 := hexVal_hexDig (n / 4096 % 16) (by omega)
  have e2 := hexVal_hexDig (n / 256 % 16) (by omega)
  have e3 := hexVal_hexDig (n / 16 % 16) (by omega)
  have e4 := hexVal_hexDig (n % 16) (by omega)
  refine ⟨String.singleton (Char.ofNat (n / 4096 % 16 * 4096 + n / 256 % 16 * 256 + n / 16 % 16 * 16 + n % 16)) ++ s, ?_⟩
  rw [uEsc, parseStrBody.eq_def]
  simp [e1, e2, e3, e4, hx]

/-- Consuming one ordinary character inside a string body. -/
theorem parseStrBody_plain {c : Char} {x : List Char} {s : String} {r : List Char}
    (h1 : c ≠ '"') (h2 : c ≠ '\\') (hx : parseStrBody x = some (s, r)) :
    ∃ s2, parseStrBody (c :: x) = some (s2, r) := by
  refine ⟨String.singleton c ++ s, ?_⟩
  rw [parseStrBody.eq_def]
  simp [h1, h2, hx]

/-- The scanner consumes exactly an escaped string body up to the closing
quote: the `json.dumps` string rendering always parses back. -/
theorem parseStrBody_escaped : ∀ (cs rest : List Char),
    ∃ s, parseStrBody (cs.flatMap escChar ++ '"' :: rest) = some (s, rest) := by
  intro cs
  induction cs with
  | nil =>
    intro rest
    refine ⟨"", ?_⟩
    rw [List.flatMap_nil, List.nil_append, parseStrBody.eq_def]
    simp
  | cons c cs ih =>
    intro rest
    obtain ⟨s0, hs0⟩ := ih rest
    show ∃ s, parseStrBody ((escChar c ++ cs.flatMap escChar) ++ '"' :: rest) = some (s, rest)
    rw [List.append_assoc]
    set tail := cs.flatMap escChar ++ '"' :: rest with htail
    unfold escChar
    split_ifs with h1 h2 h3 h4 h5 h6 h7 h8 h9
    · simpa using parseStrBody_esc2 '"' '"' (by decide) (by decide) hs0
    · simpa using parseStrBody_esc2 '\\' '\\' (by decide) (by decide) hs0
    · simpa using parseStrBody_esc2 'n' '\n' (by decide) (by decide) hs0
    · simpa using parseStrBody_esc2 'r' '\r' (by decide) (by decide) hs0
    · simpa using parseStrBody_esc2 't' '\t' (by decide) (by decide) hs0
    · simpa using parseStrBody_esc2 'b' (Char.ofNat 8) (by decide) (by decide) hs0
    · simpa using parseStrBody_esc2 'f' (Char.ofNat 12) (by decide) (by decide) hs0
    · simpa using parseStrBody_plain h1 h2 hs0
    · exact parseStrBody_uEsc_step c.toNat hs0
    · rw [List.append_assoc]
      obtain ⟨s1, hs1⟩ := parseStrBody_uEsc_step (56320 + (c.toNat - 65536) % 1024) hs0
      exact parseStrBody_uEsc_step (55296 + (c.toNat - 65536) / 1024) hs1

/-- Every value has positive size. -/
theorem sizeV_pos : ∀ v : Value, 1 ≤ sizeV v := by
  intro v
  cases v <;> simp [sizeV] <;> omega

/-- Inversion of `dumpsL` on a cons cell. -/
theorem dumpsL_cons_inv {ind : Option Nat} {dflt : Bool} {lvl : Nat} {v : Value}
    {vs : List Value} {outs : List (List Char)}
    (h : dumpsL ind dflt lvl (v :: vs) = some outs) :
    ∃ o os, dumpsV ind dflt lvl v = some o ∧ dumpsL ind dflt lvl vs = some os ∧
      outs = o :: os := by
  rw [dumpsL] at h
  cases hv : dumpsV ind dflt lvl v with
  | none => rw [hv] at h; simp at h
  | some o =>
    rw [hv] at h
    cases hl : dumpsL ind dflt lvl vs with
    | none => rw [hl] at h; simp at h
    | some os =>
      rw [hl] at h
      simp at h
      exact ⟨o, os, rfl, rfl, h.symm⟩

/-- Inversion of `dumpsM` on a cons cell. -/
theorem dumpsM_cons_inv {ind : Option Nat} {dflt : Bool} {lvl : Nat}
    {kv : String × Value} {kvs : List (String × Value)} {outs : List (List Char)}
    (h : dumpsM ind dflt lvl (kv :: kvs) = some outs) :
    ∃ o os, dumpsV ind dflt lvl kv.2 = some o ∧ dumpsM ind dflt lvl kvs = some os ∧
      outs = (jsonQuoteC kv.1 ++ ':' :: ' ' :: o) :: os := by
  rw [dumpsM] at h
  cases hv : dumpsV ind dflt lvl kv.2 with
  | none => rw [hv] at h; simp at h
  | some o =>
    rw [hv] at h
    cases hl : dumpsM ind dflt lvl kvs with
    | none => rw [hl] at h; simp at h
    | some os =>
      rw [hl] at h
      simp at h
      exact ⟨o, os, rfl, rfl, h.symm⟩

/-- The first character of any `dumpsV` output: never whitespace and never
a closing bracket, so the array parser's lookahead cannot misfire. -/
theorem dumpsV_head {ind : Option Nat} {dflt : Bool} {lvl : Nat} {v : Value}
    {out : List Char} (h : dumpsV ind dflt lvl v = some out) :
    ∃ c t, out = c :: t ∧ isWsChar c = false ∧ c ≠ ']' := by
  cases v with
  | null =>
    simp [dumpsV] at h
    exact ⟨'n', _, h.symm, by decide, by decide⟩
  | bool b =>
    cases b <;> simp [dumpsV] at h
    · exact ⟨'f', _, h.symm, by decide, by decide⟩
    · exact ⟨'t', _, h.symm, by decide, by decide⟩
  | int n =>
    simp [dumpsV] at h
    cases n with
    | ofNat m =>
      obtain ⟨c, t, hct, hd⟩ := natDigits_head m
      have hp := digit_char_props hd
      exact ⟨c, t, by rw [← h, intRepr, hct], hp.1, hp.2.2.2.2.2.2.2.1⟩
    | negSucc m =>
      exact ⟨'-', _, by rw [← h, intRepr], by decide, by decide⟩
  | str s =>
    simp [dumpsV] at h
    exact ⟨'"', _, by rw [← h, jsonQuoteC], by decide, by decide⟩
  | time t =>
    cases dflt with
    | false => simp [dumpsV] at h
    | true =>
      simp [dumpsV] at h
      exact ⟨'"', _, by rw [← h, jsonQuoteC], by decide, by decide⟩
  | list vs =>
    rw [dumpsV] at h
    cases hl : dumpsL ind dflt (lvl + 1) vs with
    | none => rw [hl] at h; simp at h
    | some items =>
      rw [hl] at h
      simp at h
      by_cases he : items.isEmpty
      · rw [renderCont, if_pos he] at h
        exact ⟨'[', _, h.symm, by decide, by decide⟩
      · rw [renderCont, if_neg he, renderSeq] at h
        exact ⟨'[', _, h.symm, by decide, by decide⟩
  | dict kvs =>
    rw [dumpsV] at h
    cases hl : dumpsM ind dflt (lvl + 1) kvs with
    | none => rw [hl] at h; simp at h
    | some items =>
      rw [hl] at h
      simp at h
      by_cases he : items.isEmpty
      · rw [renderCont, if_pos he] at h
        exact ⟨lbChar, _, h.symm, by decide, by decide⟩
      · rw [renderCont, if_neg he, renderSeq] at h
        exact ⟨lbChar, _, h.symm, by decide, by decide⟩

/-- The parser consumes a serialized `null`. -/
theorem parseVal_leaf_null (m : Nat) (pre rest : List Char) (hpre : isWsL pre) :
    parseVal (m + 1) (pre ++ (['n', 'u', 'l', 'l'] ++ rest)) = some (Value.null, rest) := by
  rw [parseVal, skipWs_ws_append hpre]
  simp only [List.cons_append]
  rw [skipWs_not_ws (by decide)]
  simp

/-- The parser consumes a serialized `true`. -/
theorem parseVal_leaf_true (m : Nat) (pre rest : List Char) (hpre : isWsL pre) :
    parseVal (m + 1) (pre ++ (['t', 'r', 'u', 'e'] ++ rest)) = some (Value.bool true, rest) := by
  rw [parseVal, skipWs_ws_append hpre]
  simp only [List.cons_append]
  rw [skipWs_not_ws (by decide)]
  simp

/-- The parser consumes a serialized `false`. -/
theorem parseVal_leaf_false (m : Nat) (pre rest : List Char) (hpre : isWsL pre) :
    parseVal (m + 1) (pre ++ (['f', 'a', 'l', 's', 'e'] ++ rest)) = some (Value.bool false, rest) := by
  rw [parseVal, skipWs_ws_append hpre]
  simp only [List.cons_append]
  rw [skipWs_not_ws (by decide)]
  simp

/-- The parser consumes a serialized string literal. -/
theorem parseVal_leaf_str (m : Nat) (pre rest : List Char) (s : String) (hpre : isWsL pre) :
    ∃ w, parseVal (m + 1) (pre ++ (jsonQuoteC s ++ rest)) = some (Value.str w, rest) := by
  obtain ⟨w, hw⟩ := parseStrBody_escaped s.data rest
  refine ⟨w, ?_⟩
  have hshape : jsonQuoteC s ++ rest = '"' :: (s.data.flatMap escChar ++ '"' :: rest) := by
    simp [jsonQuoteC]
  rw [hshape, parseVal, skipWs_ws_append hpre, skipWs_not_ws (by decide)]
  simp [hw]

/-- `parseNumber` consumes exactly a digit run (optionally signed) when the
continuation does not start with a digit. -/
theorem parseNumber_digits (ds rest : List Char) (hne : ds ≠ [])
    (hdig : ∀ c ∈ ds, c.isDigit = true) (hrest : nonDigitHead rest) :
    parseNumber (ds ++ rest) = some (Value.int (Int.ofNat (parseNumber.digitsToNat ds)), rest) ∧
    parseNumber ('-' :: (ds ++ rest)) = some (Value.int (-Int.ofNat (parseNumber.digitsToNat ds)), rest) := by
  have span := span_exact hdig hrest
  cases ds with
  | nil => exact absurd rfl hne
  | cons a b =>
    have ha := hdig a (by simp)
    have hpa := digit_char_props ha
    have hnmin : a ≠ '-' := hpa.2.2.2.2.2.2.2.2.2.1
    simp only [List.cons_append] at span
    constructor
    · rw [parseNumber.eq_def]
      simp only [List.cons_append]
      simp [hnmin, span.1, span.2]
    · rw [parseNumber.eq_def]
      simp only [List.cons_append]
      simp [span.1, span.2]

/-- The parser consumes a serialized integer when the continuation does not
start with a digit. -/
theorem parseVal_leaf_int (m : Nat) (pre rest : List Char) (n : Int)
    (hpre : isWsL pre) (hrest : nonDigitHead rest) :
    ∃ w, parseVal (m + 1) (pre ++ (intRepr n ++ rest)) = some (Value.int w, rest) := by
  cases n with
  | ofNat k =>
    obtain ⟨c, t, hct, hd⟩ := natDigits_head k
    have hp := digit_char_props hd
    have hnum := (parseNumber_digits (natDigits k) rest (natDigits_ne_nil k)
      (natDigits_all_digits k) hrest).1
    have hcons : intRepr (Int.ofNat k) ++ rest = c :: (t ++ rest) := by
      rw [intRepr, hct]; simp
    have hback : c :: (t ++ rest) = natDigits k ++ rest := by rw [hct]; simp
    refine ⟨Int.ofNat (parseNumber.digitsToNat (natDigits k)), ?_⟩
    rw [hcons, parseVal, skipWs_ws_append hpre, skipWs_not_ws hp.1]
    simp only [hp.2.1, hp.2.2.1, hp.2.2.2.1, hp.2.2.2.2.1, hp.2.2.2.2.2.1,
      hp.2.2.2.2.2.2.1, ite_false]
    rw [hback, hnum]
  | negSucc k =>
    have hnum := (parseNumber_digits (natDigits (k + 1)) rest (natDigits_ne_nil (k + 1))
      (natDigits_all_digits (k + 1)) hrest).2
    have hcons : intRepr (Int.negSucc k) ++ rest = '-' :: (natDigits (k + 1) ++ rest) := by
      rw [intRepr]; simp
    refine ⟨-(Int.ofNat (parseNumber.digitsToNat (natDigits (k + 1)))), ?_⟩
    rw [hcons, parseVal, skipWs_ws_append hpre, skipWs_not_ws (by decide)]
    simp only [ite_false, reduceIte]
    rw [hnum]
    rw [if_neg (by decide), if_neg (by decide), if_neg (by decide),
      if_neg (by decide), if_neg (by decide), if_neg (by decide)]

/-- `dumpsL` preserves length. -/
theorem dumpsL_length {ind : Option Nat} {dflt : Bool} {lvl : Nat} :
    ∀ {elems : List Value} {outs : List (List Char)},
    dumpsL ind dflt lvl elems = some outs → outs.length = elems.length := by
  intro elems
  induction elems with
  | nil => intro outs h; rw [dumpsL] at h; simp at h; simp [← h]
  | cons v vs ih =>
    intro outs h
    obtain ⟨o, os, _, hL, rfl⟩ := dumpsL_cons_inv h
    simp [ih hL]

/-- `dumpsM` preserves length. -/
theorem dumpsM_length {ind : Option Nat} {dflt : Bool} {lvl : Nat} :
    ∀ {kvs : List (String × Value)} {outs : List (List Char)},
    dumpsM ind dflt lvl kvs = some outs → outs.length = kvs.length := by
  intro kvs
  induction kvs with
  | nil => intro outs h; rw [dumpsM] at h; simp at h; simp [← h]
  | cons kv kvs ih =>
    intro outs h
    obtain ⟨o, os, _, hM, rfl⟩ := dumpsM_cons_inv h
    simp [ih hM]

/-- `restJoin` on an empty item list is just the tail. -/
theorem restJoin_nil (sep : List Char) (tail : List Char) :
    restJoin sep [] tail = tail := rfl

/-- `restJoin` on a cons: comma, separator padding, the item, the rest. -/
theorem restJoin_cons (sep o : List Char) (os : List (List Char)) (tail : List Char) :
    restJoin sep (o :: os) tail = ',' :: (sep ++ (o ++ restJoin sep os tail)) := rfl

/-- The head of a `restJoin` rendering never extends a digit run. -/
theorem restJoin_head {sep : List Char} {tail : List Char}
    (htail : nonDigitHead tail) : ∀ (outs : List (List Char)),
    nonDigitHead (restJoin sep outs tail) := by
  intro outs
  cases outs with
  | nil => rw [restJoin_nil]; exact htail
  | cons o os =>
    rw [restJoin_cons]
    exact nonDigitHead_cons (by decide) _

/-- A closing bracket does not extend a digit run. -/
theorem nonDigitHead_close_sq (wEnd rest : List Char) (hw : isWsL wEnd) :
    nonDigitHead (wEnd ++ ']' :: rest) :=
  nonDigitHead_ws_append hw (nonDigitHead_cons (by decide) rest)

/-- A closing brace does not extend a digit run. -/
theorem nonDigitHead_close_br (wEnd rest : List Char) (hw : isWsL wEnd) :
    nonDigitHead (wEnd ++ rbChar :: rest) :=
  nonDigitHead_ws_append hw (nonDigitHead_cons (by decide) rest)

/-- `shapeMatch` holds vacuously when the serialized value is not a
container. -/
theorem shapeMatch_of_ne (v w : Value) (h1 : ∀ vs, v ≠ Value.list vs)
    (h2 : ∀ kvs, v ≠ Value.dict kvs) : shapeMatch v w :=
  ⟨fun vs h => absurd h (h1 vs), fun kvs h => absurd h (h2 kvs)⟩

/-- `shapeMatch` between two lists of equal length. -/
theorem shapeMatch_list {vs ws : List Value} (h : ws.length = vs.length) :
    shapeMatch (Value.list vs) (Value.list ws) := by
  constructor
  · intro vs0 hv
    cases hv
    exact ⟨ws, rfl, h⟩
  · intro kvs hv
    exact absurd hv (by simp)

/-- `shapeMatch` between two objects of equal length. -/
theorem shapeMatch_dict {kvs : List (String × Value)} {ws : List (String × Value)}
    (h : ws.length = kvs.length) :
    shapeMatch (Value.dict kvs) (Value.dict ws) := by
  constructor
  · intro vs0 hv
    exact absurd hv (by simp)
  · intro kvs0 hv
    cases hv
    exact ⟨ws, rfl, h⟩

set_option maxHeartbeats 1000000

/-- Round trip of the serializer through the fuel-bounded parser: any
`dumpsV` output (compact or indented), embedded between whitespace padding
and a non-digit continuation, is consumed exactly, and the parsed value has
the same container shape and item count. Proved by induction on the fuel,
mutually for values, array items, and object members. -/
theorem parseDumps : ∀ fuel : Nat,
    (∀ (ind : Option Nat) (dflt : Bool) (lvl : Nat) (v : Value) (out : List Char),
      dumpsV ind dflt lvl v = some out → sizeV v ≤ fuel →
      ∀ (pre rest : List Char), isWsL pre → nonDigitHead rest →
      ∃ w, parseVal fuel (pre ++ (out ++ rest)) = some (w, rest) ∧ shapeMatch v w) ∧
    (∀ (ind : Option Nat) (dflt : Bool) (lvl : Nat) (elems : List Value) (outs : List (List Char)),
      dumpsL ind dflt lvl elems = some outs → sizeL elems + 1 ≤ fuel →
      ∀ (w0 sep wEnd rest : List Char), isWsL w0 → isWsL sep → isWsL wEnd →
      ∃ ws, parseItems fuel (w0 ++ (joinItems (',' :: sep) outs ++ (wEnd ++ ']' :: rest))) =
        some (ws, rest) ∧ ws.length = elems.length) ∧
    (∀ (ind : Option Nat) (dflt : Bool) (lvl : Nat) (elems : List Value) (outs : List (List Char)),
      dumpsL ind dflt lvl elems = some outs → sizeL elems + 1 ≤ fuel →
      ∀ (sep wEnd rest : List Char), isWsL sep → isWsL wEnd →
      ∃ ws, parseItemsRest fuel (restJoin sep outs (wEnd ++ ']' :: rest)) =
        some (ws, rest) ∧ ws.length = elems.length) ∧
    (∀ (ind : Option Nat) (dflt : Bool) (lvl : Nat) (kvs : List (String × Value)) (outs : List (List Char)),
      dumpsM ind dflt lvl kvs = some outs → sizeM kvs + 1 ≤ fuel →
      ∀ (w0 sep wEnd rest : List Char), isWsL w0 → isWsL sep → isWsL wEnd →
      ∃ ws, parseMembers fuel (w0 ++ (joinItems (',' :: sep) outs ++ (wEnd ++ rbChar :: rest))) =
        some (ws, rest) ∧ ws.length = kvs.length) ∧
    (∀ (ind : Option Nat) (dflt : Bool) (lvl : Nat) (kvs : List (String × Value)) (outs : List (List Char)),
      dumpsM ind dflt lvl kvs = some outs → sizeM kvs + 1 ≤ fuel →
      ∀ (sep wEnd rest : List Char), isWsL sep → isWsL wEnd →
      ∃ ws, parseMembersRest fuel (restJoin sep outs (wEnd ++ rbChar :: rest)) =
        some (ws, rest) ∧ ws.length = kvs.length) := by
  intro fuel
  induction fuel with
  | zero =>
    refine ⟨?_, ?_, ?_, ?_, ?_⟩
    · intro _ _ _ v _ _ hsz
      have := sizeV_pos v
      omega
    · intro _ _ _ _ _ _ hsz
      omega
    · intro _ _ _ _ _ _ hsz
      omega
    · intro _ _ _ _ _ _ hsz
      omega
    · intro _ _ _ _ _ _ hsz
      omega
  | succ n ih =>
    obtain ⟨ihV, ihI, ihIR, ihM, ihMR⟩ := ih
    have hrseq : ∀ (op cl : Char) (ind : Option Nat) (lvl : Nat) (items : List (List Char)),
        renderSeq op cl ind lvl items =
          op :: ((wsParams ind lvl).1 ++ joinItems (',' :: (wsParams ind lvl).2.1) items ++
            (wsParams ind lvl).2.2 ++ [cl]) := fun _ _ _ _ _ => rfl
    refine ⟨?_, ?_, ?_, ?_, ?_⟩
    · -- parseVal at n + 1
      intro ind dflt lvl v out hd hsz pre rest hpre hrest
      cases v with
      | null =>
        simp [dumpsV] at hd
        subst hd
        exact ⟨Value.null, parseVal_leaf_null n pre rest hpre,
          shapeMatch_of_ne _ _ (fun _ => by simp) (fun _ => by simp)⟩
      | bool b =>
        cases b with
        | false =>
          simp [dumpsV] at hd
          subst hd
          exact ⟨Value.bool false, parseVal_leaf_false n pre rest hpre,
            shapeMatch_of_ne _ _ (fun _ => by simp) (fun _ => by simp)⟩
        | true =>
          simp [dumpsV] at hd
          subst hd
          exact ⟨Value.bool true, parseVal_leaf_true n pre rest hpre,
            shapeMatch_of_ne _ _ (fun _ => by simp) (fun _ => by simp)⟩
      | int ni =>
        simp [dumpsV] at hd
        subst hd
        obtain ⟨w, hw⟩ := parseVal_leaf_int n pre rest ni hpre hrest
        exact ⟨Value.int w, hw,
          shapeMatch_of_ne _ _ (fun _ => by simp) (fun _ => by simp)⟩
      | str s =>
        simp [dumpsV] at hd
        subst hd
        obtain ⟨w, hw⟩ := parseVal_leaf_str n pre rest s hpre
        exact ⟨Value.str w, hw,
          shapeMatch_of_ne _ _ (fun _ => by simp) (fun _ => by simp)⟩
      | time t =>
        cases dflt with
        | false => simp [dumpsV] at hd
        | true =>
          simp [dumpsV] at hd
          subst hd
          obtain ⟨w, hw⟩ := parseVal_leaf_str n pre rest (pyStrTimestamp t) hpre
          exact ⟨Value.str w, hw,
            shapeMatch_of_ne _ _ (fun _ => by simp) (fun _ => by simp)⟩
      | list vs =>
        rw [dumpsV] at hd
        rw [sizeV] at hsz
        cases hL : dumpsL ind dflt (lvl + 1) vs with
        | none => rw [hL] at hd; simp at hd
        | some items =>
          rw [hL] at hd
          simp at hd
          subst hd
          by_cases hemp : items.isEmpty
          · have hlen := dumpsL_length hL
            have hvs : vs = [] := by
              cases vs with
              | nil => rfl
              | cons a b =>
                rw [List.isEmpty_iff] at hemp
                subst hemp
                simp at hlen
            subst hvs
            have h0 : sizeL ([] : List Value) = 0 := rfl
            obtain ⟨m, rfl⟩ : ∃ m, n = m + 1 := ⟨n - 1, by omega⟩
            rw [renderCont, if_pos hemp]
            refine ⟨Value.list [], ?_, shapeMatch_list (by simp)⟩
            rw [parseVal, skipWs_ws_append hpre]
            simp only [List.cons_append]
            rw [skipWs_not_ws (by decide)]
            simp [parseItems, skipWs, isWsChar]
          · rw [renderCont, if_neg hemp, hrseq]
            obtain ⟨hw0, hsep, hwE⟩ := wsParams_ws ind lvl
            obtain ⟨ws, hparse, hlen⟩ := ihI ind dflt (lvl + 1) vs items hL (by omega)
              (wsParams ind lvl).1 (wsParams ind lvl).2.1 (wsParams ind lvl).2.2 rest hw0 hsep hwE
            refine ⟨Value.list ws, ?_, shapeMatch_list hlen⟩
            rw [parseVal, skipWs_ws_append hpre]
            simp only [List.cons_append]
            rw [skipWs_not_ws (by decide)]
            simp [hparse]
      | dict kvs =>
        rw [dumpsV] at hd
        rw [sizeV] at hsz
        cases hL : dumpsM ind dflt (lvl + 1) kvs with
        | none => rw [hL] at hd; simp at hd
        | some items =>
          rw [hL] at hd
          simp at hd
          subst hd
          by_cases hemp : items.isEmpty
          · have hlen := dumpsM_length hL
            have hkvs : kvs = [] := by
              cases kvs with
              | nil => rfl
              | cons a b =>
                rw [List.isEmpty_iff] at hemp
                subst hemp
                simp at hlen
            subst hkvs
            have h0 : sizeM ([] : List (String × Value)) = 0 := rfl
            obtain ⟨m, rfl⟩ : ∃ m, n = m + 1 := ⟨n - 1, by omega⟩
            rw [renderCont, if_pos hemp]
            refine ⟨Value.dict [], ?_, shapeMatch_dict (by simp)⟩
            rw [parseVal, skipWs_ws_append hpre]
            simp only [List.cons_append]
            rw [skipWs_not_ws (by decide)]
            have hrb : isWsChar rbChar = false := by decide
            have dLb : lbChar ≠ 'n' ∧ lbChar ≠ 't' ∧ lbChar ≠ 'f' ∧ lbChar ≠ '"' ∧
                lbChar ≠ '[' := by decide
            simp [dLb.1, dLb.2.1, dLb.2.2.1, dLb.2.2.2.1, dLb.2.2.2.2,
              parseMembers, skipWs, hrb]
          · rw [renderCont, if_neg hemp, hrseq]
            obtain ⟨hw0, hsep, hwE⟩ := wsParams_ws ind lvl
            obtain ⟨ws, hparse, hlen⟩ := ihM ind dflt (lvl + 1) kvs items hL (by omega)
              (wsParams ind lvl).1 (wsParams ind lvl).2.1 (wsParams ind lvl).2.2 rest hw0 hsep hwE
            refine ⟨Value.dict ws, ?_, shapeMatch_dict hlen⟩
            rw [parseVal, skipWs_ws_append hpre]
            simp only [List.cons_append]
            rw [skipWs_not_ws (by decide)]
            have dLb : lbChar ≠ 'n' ∧ lbChar ≠ 't' ∧ lbChar ≠ 'f' ∧ lbChar ≠ '"' ∧
                lbChar ≠ '[' := by decide
            simp [dLb.1, dLb.2.1, dLb.2.2.1, dLb.2.2.2.1, dLb.2.2.2.2, hparse]
    · -- parseItems at n + 1
      intro ind dflt lvl elems outs hL hsz w0 sep wEnd rest hw0 hsep hwE
      cases elems with
      | nil =>
        rw [dumpsL] at hL
        simp at hL
        subst hL
        refine ⟨[], ?_, rfl⟩
        rw [parseItems, joinItems]
        simp only [List.nil_append]
        rw [skipWs_ws_append hw0, skipWs_ws_append hwE, skipWs_not_ws (by decide)]
        simp
      | cons v vs =>
        obtain ⟨o, os, hdV, hdL, rfl⟩ := dumpsL_cons_inv hL
        obtain ⟨c, t, hct, hcw, hcsq⟩ := dumpsV_head hdV
        have hjoin := joinItems_cons_tail sep o os (wEnd ++ ']' :: rest)
        rw [sizeL] at hsz
        have hvpos := sizeV_pos v
        have hrestJ : nonDigitHead (restJoin sep os (wEnd ++ ']' :: rest)) :=
          restJoin_head (nonDigitHead_close_sq wEnd rest hwE) os
        obtain ⟨w1, hw1, _⟩ := ihV ind dflt lvl v o hdV (by omega) []
          (restJoin sep os (wEnd ++ ']' :: rest)) isWsL_nil hrestJ
        rw [List.nil_append] at hw1
        obtain ⟨ws, hwr, hlen⟩ := ihIR ind dflt lvl vs os hdL (by omega) sep wEnd rest hsep hwE
        refine ⟨w1 :: ws, ?_, by simp [hlen]⟩
        rw [parseItems, skipWs_ws_append hw0, hjoin]
        rw [hct] at hw1 ⊢
        simp only [List.cons_append] at hw1 ⊢
        rw [skipWs_not_ws hcw]
        simp [hcsq, hw1, hwr]
    · -- parseItemsRest at n + 1
      intro ind dflt lvl elems outs hL hsz sep wEnd rest hsep hwE
      cases elems with
      | nil =>
        rw [dumpsL] at hL
        simp at hL
        subst hL
        refine ⟨[], ?_, rfl⟩
        rw [restJoin_nil, parseItemsRest, skipWs_ws_append hwE, skipWs_not_ws (by decide)]
        simp
      | cons v vs =>
        obtain ⟨o, os, hdV, hdL, rfl⟩ := dumpsL_cons_inv hL
        rw [sizeL] at hsz
        have hvpos := sizeV_pos v
        have hrestJ : nonDigitHead (restJoin sep os (wEnd ++ ']' :: rest)) :=
          restJoin_head (nonDigitHead_close_sq wEnd rest hwE) os
        obtain ⟨w1, hw1, _⟩ := ihV ind dflt lvl v o hdV (by omega) sep
          (restJoin sep os (wEnd ++ ']' :: rest)) hsep hrestJ
        obtain ⟨ws, hwr, hlen⟩ := ihIR ind dflt lvl vs os hdL (by omega) sep wEnd rest hsep hwE
        refine ⟨w1 :: ws, ?_, by simp [hlen]⟩
        rw [restJoin_cons, parseItemsRest, skipWs_not_ws (by decide)]
        simp [hw1, hwr]
    · -- parseMembers at n + 1
      intro ind dflt lvl kvs outs hM hsz w0 sep wEnd rest hw0 hsep hwE
      cases kvs with
      | nil =>
        rw [dumpsM] at hM
        simp at hM
        subst hM
        refine ⟨[], ?_, rfl⟩
        rw [parseMembers, joinItems]
        simp only [List.nil_append]
        rw [skipWs_ws_append hw0, skipWs_ws_append hwE,
          skipWs_not_ws (by decide : isWsChar rbChar = false)]
        simp
      | cons kv kvs =>
        obtain ⟨o, os, hdV, hdM, rfl⟩ := dumpsM_cons_inv hM
        have hjoin := joinItems_cons_tail sep (jsonQuoteC kv.1 ++ ':' :: ' ' :: o) os
          (wEnd ++ rbChar :: rest)
        rw [sizeM] at hsz
        have hvpos := sizeV_pos kv.2
        have hrestJ : nonDigitHead (restJoin sep os (wEnd ++ rbChar :: rest)) :=
          restJoin_head (nonDigitHead_close_br wEnd rest hwE) os
        have hshape : (jsonQuoteC kv.1 ++ ':' :: ' ' :: o) ++ restJoin sep os (wEnd ++ rbChar :: rest) =
            '"' :: (kv.1.data.flatMap escChar ++ '"' ::
              (':' :: ' ' :: (o ++ restJoin sep os (wEnd ++ rbChar :: rest)))) := by
          simp [jsonQuoteC]
        obtain ⟨k2, hk⟩ := parseStrBody_escaped kv.1.data
          (':' :: ' ' :: (o ++ restJoin sep os (wEnd ++ rbChar :: rest)))
        obtain ⟨w1, hw1, _⟩ := ihV ind dflt lvl kv.2 o hdV (by omega) [' ']
          (restJoin sep os (wEnd ++ rbChar :: rest)) isWsL_space hrestJ
        simp only [List.cons_append, List.nil_append] at hw1
        obtain ⟨ws, hwr, hlen⟩ := ihMR ind dflt lvl kvs os hdM (by omega) sep wEnd rest hsep hwE
        refine ⟨(k2, w1) :: ws, ?_, by simp [hlen]⟩
        rw [parseMembers, skipWs_ws_append hw0, hjoin, hshape,
          skipWs_not_ws (by decide)]
        have hq : ('"' : Char) ≠ rbChar := by decide
        have hcol : isWsChar ':' = false := by decide
        simp [hq, hk, skipWs_not_ws hcol, hw1, hwr]
    · -- parseMembersRest at n + 1
      intro ind dflt lvl kvs outs hM hsz sep wEnd rest hsep hwE
      cases kvs with
      | nil =>
        rw [dumpsM] at hM
        simp at hM
        subst hM
        refine ⟨[], ?_, rfl⟩
        rw [restJoin_nil, parseMembersRest, skipWs_ws_append hwE,
          skipWs_not_ws (by decide : isWsChar rbChar = false)]
        simp
      | cons kv kvs =>
        obtain ⟨o, os, hdV, hdM, rfl⟩ := dumpsM_cons_inv hM
        rw [sizeM] at hsz
        have hvpos := sizeV_pos kv.2
        have hrestJ : nonDigitHead (restJoin sep os (wEnd ++ rbChar :: rest)) :=
          restJoin_head (nonDigitHead_close_br wEnd rest hwE) os
        have hshape : (jsonQuoteC kv.1 ++ ':' :: ' ' :: o) ++ restJoin sep os (wEnd ++ rbChar :: rest) =
            '"' :: (kv.1.data.flatMap escChar ++ '"' ::
              (':' :: ' ' :: (o ++ restJoin sep os (wEnd ++ rbChar :: rest)))) := by
          simp [jsonQuoteC]
        obtain ⟨k2, hk⟩ := parseStrBody_escaped kv.1.data
          (':' :: ' ' :: (o ++ restJoin sep os (wEnd ++ rbChar :: rest)))
        obtain ⟨w1, hw1, _⟩ := ihV ind dflt lvl kv.2 o hdV (by omega) [' ']
          (restJoin sep os (wEnd ++ rbChar :: rest)) isWsL_space hrestJ
        simp only [List.cons_append, List.nil_append] at hw1
        obtain ⟨ws, hwr, hlen⟩ := ihMR ind dflt lvl kvs os hdM (by omega) sep wEnd rest hsep hwE
        refine ⟨(k2, w1) :: ws, ?_, by simp [hlen]⟩
        rw [restJoin_cons, parseMembersRest, skipWs_not_ws (by decide)]
        have hcm : (',' : Char) ≠ rbChar := by decide
        have hcol : isWsChar ':' = false := by decide
        have hqw : isWsChar '"' = false := by decide
        have hshape2 : jsonQuoteC kv.1 ++ ':' :: ' ' :: (o ++ restJoin sep os (wEnd ++ rbChar :: rest)) =
            '"' :: (kv.1.data.flatMap escChar ++ '"' ::
              (':' :: ' ' :: (o ++ restJoin sep os (wEnd ++ rbChar :: rest)))) := by
          simp [jsonQuoteC]
        simp [hcm, skipWs_ws_append hsep, hshape2, skipWs_not_ws hqw, hk,
          skipWs_not_ws hcol, hw1, hwr]

/-- Hex digit characters of small values are never a newline. -/
theorem hexDig_ne_nl {m : Nat} (h : m < 16) : hexDig m ≠ '\n' := by
  interval_cases m <;> decide

/-- A `\uXXXX` escape never contains a newline. -/
theorem uEsc_no_nl (n : Nat) : '\n' ∉ uEsc n := by
  intro hmem
  simp only [uEsc, List.mem_cons] at hmem
  rcases hmem with h | h | h | h | h | h
  · exact absurd h (by decide)
  · exact absurd h (by decide)
  · exact absurd h.symm (hexDig_ne_nl (by omega))
  · exact absurd h.symm (hexDig_ne_nl (by omega))
  · exact absurd h.symm (hexDig_ne_nl (by omega))
  · rcases h with h | h
    · exact absurd h.symm (hexDig_ne_nl (by omega))
    · simp at h

/-- The JSON escape of any character never contains a raw newline. -/
theorem escChar_no_nl (c : Char) : '\n' ∉ escChar c := by
  unfold escChar
  split_ifs with h1 h2 h3 h4 h5 h6 h7 h8 h9
  · decide
  · decide
  · decide
  · decide
  · decide
  · decide
  · decide
  · intro hmem
    simp at hmem
    subst hmem
    revert h8
    decide
  · exact uEsc_no_nl _
  · intro hmem
    rcases List.mem_append.mp hmem with h | h
    · exact uEsc_no_nl _ h
    · exact uEsc_no_nl _ h

/-- A JSON string literal never contains a raw newline. -/
theorem jsonQuoteC_no_nl (s : String) : '\n' ∉ jsonQuoteC s := by
  intro hmem
  simp only [jsonQuoteC, List.mem_cons, List.mem_append] at hmem
  rcases hmem with h | h | h
  · exact absurd h (by decide)
  · rcases List.mem_flatMap.mp h with ⟨c, _, hc⟩
    exact escChar_no_nl c hc
  · simp at h

/-- A JSON string literal is at least two characters long. -/
theorem jsonQuoteC_len (s : String) : 2 ≤ (jsonQuoteC s).length := by
  simp [jsonQuoteC]

/-- A serialized integer is nonempty. -/
theorem intRepr_len (n : Int) : 1 ≤ (intRepr n).length := by
  cases n with
  | ofNat m =>
    rw [intRepr]
    cases h : natDigits m with
    | nil => exact absurd h (natDigits_ne_nil m)
    | cons a b => simp
  | negSucc m => rw [intRepr]; simp

/-- `json.dumps` succeeds exactly when a `default=` fallback is supplied or
the value contains no timestamp (otherwise `TypeError` propagates). -/
theorem dumpsSome : ∀ N : Nat,
    (∀ (ind : Option Nat) (dflt : Bool) (lvl : Nat) (v : Value), sizeV v ≤ N →
      (dumpsV ind dflt lvl v).isSome = (dflt || !hasTimeV v)) ∧
    (∀ (ind : Option Nat) (dflt : Bool) (lvl : Nat) (elems : List Value), sizeL elems ≤ N →
      (dumpsL ind dflt lvl elems).isSome = (dflt || !hasTimeL elems)) ∧
    (∀ (ind : Option Nat) (dflt : Bool) (lvl : Nat) (kvs : List (String × Value)), sizeM kvs ≤ N →
      (dumpsM ind dflt lvl kvs).isSome = (dflt || !hasTimeM kvs)) := by
  intro N
  induction N with
  | zero =>
    refine ⟨?_, ?_, ?_⟩
    · intro _ _ _ v hsz
      have := sizeV_pos v
      omega
    · intro ind dflt lvl elems hsz
      cases elems with
      | nil => simp [dumpsL, hasTimeL]
      | cons v vs =>
        rw [sizeL] at hsz
        have := sizeV_pos v
        omega
    · intro ind dflt lvl kvs hsz
      cases kvs with
      | nil => simp [dumpsM, hasTimeM]
      | cons kv kvs =>
        rw [sizeM] at hsz
        have := sizeV_pos kv.2
        omega
  | succ n ih =>
    obtain ⟨ihV, ihL, ihM⟩ := ih
    refine ⟨?_, ?_, ?_⟩
    · intro ind dflt lvl v hsz
      cases v with
      | null => simp [dumpsV, hasTimeV]
      | bool b => simp [dumpsV, hasTimeV]
      | int ni => simp [dumpsV, hasTimeV]
      | str s => simp [dumpsV, hasTimeV]
      | time t => cases dflt <;> simp [dumpsV, hasTimeV]
      | list vs =>
        rw [sizeV] at hsz
        have hB := ihL ind dflt (lvl + 1) vs (by omega)
        rw [dumpsV, hasTimeV]
        cases hL : dumpsL ind dflt (lvl + 1) vs with
        | none => rw [hL] at hB; simp at hB ⊢; simp [hB]
        | some items => rw [hL] at hB; simp at hB ⊢; exact hB
      | dict kvs =>
        rw [sizeV] at hsz
        have hB := ihM ind dflt (lvl + 1) kvs (by omega)
        rw [dumpsV, hasTimeV]
        cases hL : dumpsM ind dflt (lvl + 1) kvs with
        | none => rw [hL] at hB; simp at hB ⊢; simp [hB]
        | some items => rw [hL] at hB; simp at hB ⊢; exact hB
    · intro ind dflt lvl elems hsz
      cases elems with
      | nil => simp [dumpsL, hasTimeL]
      | cons v vs =>
        rw [sizeL] at hsz
        have hvpos := sizeV_pos v
        have hA := ihV ind dflt lvl v (by omega)
        have hB := ihL ind dflt lvl vs (by omega)
        rw [dumpsL, hasTimeL]
        cases hV : dumpsV ind dflt lvl v with
        | none =>
          rw [hV] at hA
          simp at hA ⊢
          simp [hA.1, hA.2]
        | some o =>
          rw [hV] at hA
          simp at hA
          cases hL : dumpsL ind dflt lvl vs with
          | none =>
            rw [hL] at hB
            simp at hB ⊢
            simp [hB.1, hB.2]
          | some os =>
            rw [hL] at hB
            simp at hB ⊢
            rcases hA with hA | hA <;> rcases hB with hB | hB <;> simp [hA, hB]
    · intro ind dflt lvl kvs hsz
      cases kvs with
      | nil => simp [dumpsM, hasTimeM]
      | cons kv kvs =>
        rw [sizeM] at hsz
        have hvpos := sizeV_pos kv.2
        have hA := ihV ind dflt lvl kv.2 (by omega)
        have hB := ihM ind dflt lvl kvs (by omega)
        rw [dumpsM, hasTimeM]
        cases hV : dumpsV ind dflt lvl kv.2 with
        | none =>
          rw [hV] at hA
          simp at hA ⊢
          simp [hA.1, hA.2]
        | some o =>
          rw [hV] at hA
          simp at hA
          cases hL : dumpsM ind dflt lvl kvs with
          | none =>
            rw [hL] at hB
            simp at hB ⊢
            simp [hB.1, hB.2]
          | some os =>
            rw [hL] at hB
            simp at hB ⊢
            rcases hA with hA | hA <;> rcases hB with hB | hB <;> simp [hA, hB]

/-- Compact (non-indented) `json.dumps` output never contains a raw
newline: newlines inside strings are escaped and the compact separators are
comma and space. -/
theorem dumpsNoNl : ∀ N : Nat,
    (∀ (dflt : Bool) (lvl : Nat) (v : Value) (out : List Char),
      dumpsV none dflt lvl v = some out → sizeV v ≤ N → '\n' ∉ out) ∧
    (∀ (dflt : Bool) (lvl : Nat) (elems : List Value) (outs : List (List Char)),
      dumpsL none dflt lvl elems = some outs → sizeL elems ≤ N →
      ∀ o ∈ outs, '\n' ∉ o) ∧
    (∀ (dflt : Bool) (lvl : Nat) (kvs : List (String × Value)) (outs : List (List Char)),
      dumpsM none dflt lvl kvs = some outs → sizeM kvs ≤ N →
      ∀ o ∈ outs, '\n' ∉ o) := by
  intro N
  induction N with
  | zero =>
    refine ⟨?_, ?_, ?_⟩
    · intro _ _ v _ _ hsz
      have := sizeV_pos v
      omega
    · intro dflt lvl elems outs hL hsz
      cases elems with
      | nil => rw [dumpsL] at hL; simp at hL; subst hL; simp
      | cons v vs =>
        rw [sizeL] at hsz
        have := sizeV_pos v
        omega
    · intro dflt lvl kvs outs hM hsz
      cases kvs with
      | nil => rw [dumpsM] at hM; simp at hM; subst hM; simp
      | cons kv kvs =>
        rw [sizeM] at hsz
        have := sizeV_pos kv.2
        omega
  | succ n ih =>
    obtain ⟨ihV, ihL, ihM⟩ := ih
    refine ⟨?_, ?_, ?_⟩
    · intro dflt lvl v out hd hsz
      cases v with
      | null => simp [dumpsV] at hd; subst hd; decide
      | bool b => cases b <;> simp [dumpsV] at hd <;> subst hd <;> decide
      | int ni =>
        simp [dumpsV] at hd
        subst hd
        intro hmem
        cases ni with
        | ofNat m =>
          rw [intRepr] at hmem
          exact absurd (natDigits_all_digits m '\n' hmem) (by decide)
        | negSucc m =>
          rw [intRepr] at hmem
          rcases List.mem_cons.mp hmem with h | h
          · exact absurd h (by decide)
          · exact absurd (natDigits_all_digits (m + 1) '\n' h) (by decide)
      | str s => simp [dumpsV] at hd; subst hd; exact jsonQuoteC_no_nl s
      | time t =>
        cases dflt with
        | false => simp [dumpsV] at hd
        | true => simp [dumpsV] at hd; subst hd; exact jsonQuoteC_no_nl _
      | list vs =>
        rw [dumpsV] at hd
        rw [sizeV] at hsz
        cases hL : dumpsL none dflt (lvl + 1) vs with
        | none => rw [hL] at hd; simp at hd
        | some items =>
          rw [hL] at hd
          simp at hd
          subst hd
          have hitems := ihL dflt (lvl + 1) vs items hL (by omega)
          by_cases hemp : items.isEmpty
          · rw [renderCont, if_pos hemp]; decide
          · rw [renderCont, if_neg hemp, renderSeq]
            intro hmem
            simp only [wsParams, List.mem_cons, List.nil_append, List.append_nil,
              List.mem_append] at hmem
            rcases hmem with h | h | h
            · exact absurd h (by decide)
            · rcases mem_joinItems h with h | ⟨i, hi, hni⟩
              · revert h
                decide
              · exact hitems i hi hni
            · revert h
              decide
      | dict kvs =>
        rw [dumpsV] at hd
        rw [sizeV] at hsz
        cases hL : dumpsM none dflt (lvl + 1) kvs with
        | none => rw [hL] at hd; simp at hd
        | some items =>
          rw [hL] at hd
          simp at hd
          subst hd
          have hitems := ihM dflt (lvl + 1) kvs items hL (by omega)
          by_cases hemp : items.isEmpty
          · rw [renderCont, if_pos hemp]
            intro hmem
            simp at hmem
            rcases hmem with h | h <;> revert h <;> decide
          · rw [renderCont, if_neg hemp, renderSeq]
            intro hmem
            simp only [wsParams, List.mem_cons, List.nil_append, List.append_nil,
              List.mem_append] at hmem
            rcases hmem with h | h | h
            · exact absurd h (by decide)
            · rcases mem_joinItems h with h | ⟨i, hi, hni⟩
              · revert h
                decide
              · exact hitems i hi hni
            · revert h
              decide
    · intro dflt lvl elems outs hL hsz
      cases elems with
      | nil => rw [dumpsL] at hL; simp at hL; subst hL; simp
      | cons v vs =>
        obtain ⟨o, os, hdV, hdL, rfl⟩ := dumpsL_cons_inv hL
        rw [sizeL] at hsz
        have hvpos := sizeV_pos v
        intro x hx
        rcases List.mem_cons.mp hx with rfl | hx'
        · exact ihV dflt lvl v x hdV (by omega)
        · exact ihL dflt lvl vs os hdL (by omega) x hx'
    · intro dflt lvl kvs outs hM hsz
      cases kvs with
      | nil => rw [dumpsM] at hM; simp at hM; subst hM; simp
      | cons kv kvs =>
        obtain ⟨o, os, hdV, hdM, rfl⟩ := dumpsM_cons_inv hM
        rw [sizeM] at hsz
        have hvpos := sizeV_pos kv.2
        intro x hx
        rcases List.mem_cons.mp hx with rfl | hx'
        · intro hmem
          simp only [List.mem_append, List.mem_cons] at hmem
          rcases hmem with h | h | h | h
          · exact jsonQuoteC_no_nl kv.1 h
          · exact absurd h (by decide)
          · exact absurd h (by decide)
          · exact ihV dflt lvl kv.2 o hdV (by omega) h
        · exact ihM dflt lvl kvs os hdM (by omega) x hx'

/-- The fuel measure of a value is at most twice the length of its
serialization, so `2 * length + 2` fuel always suffices for the parser. -/
theorem dumpsLen : ∀ N : Nat,
    (∀ (ind : Option Nat) (dflt : Bool) (lvl : Nat) (v : Value) (out : List Char),
      dumpsV ind dflt lvl v = some out → sizeV v ≤ N → sizeV v ≤ 2 * out.length) ∧
    (∀ (ind : Option Nat) (dflt : Bool) (lvl : Nat) (elems : List Value) (outs : List (List Char)),
      dumpsL ind dflt lvl elems = some outs → sizeL elems ≤ N →
      sizeL elems ≤ 2 * sumLen outs + elems.length) ∧
    (∀ (ind : Option Nat) (dflt : Bool) (lvl : Nat) (kvs : List (String × Value)) (outs : List (List Char)),
      dumpsM ind dflt lvl kvs = some outs → sizeM kvs ≤ N →
      sizeM kvs ≤ 2 * sumLen outs + kvs.length) := by
  intro N
  induction N with
  | zero =>
    refine ⟨?_, ?_, ?_⟩
    · intro _ _ _ v _ _ hsz
      have := sizeV_pos v
      omega
    · intro ind dflt lvl elems outs hL hsz
      cases elems with
      | nil => rw [sizeL]; omega
      | cons v vs =>
        rw [sizeL] at hsz
        have := sizeV_pos v
        omega
    · intro ind dflt lvl kvs outs hM hsz
      cases kvs with
      | nil => rw [sizeM]; omega
      | cons kv kvs =>
        rw [sizeM] at hsz
        have := sizeV_pos kv.2
        omega
  | succ n ih =>
    obtain ⟨ihV, ihL, ihM⟩ := ih
    refine ⟨?_, ?_, ?_⟩
    · intro ind dflt lvl v out hd hsz
      cases v with
      | null =>
        simp [dumpsV] at hd
        subst hd
        simp [sizeV]
      | bool b =>
        cases b <;> simp [dumpsV] at hd <;> subst hd <;> simp [sizeV]
      | int ni =>
        simp [dumpsV] at hd
        subst hd
        have := intRepr_len ni
        have hs1 : sizeV (Value.int ni) = 1 := rfl
        omega
      | str s =>
        simp [dumpsV] at hd
        subst hd
        have := jsonQuoteC_len s
        have hs1 : sizeV (Value.str s) = 1 := rfl
        omega
      | time t =>
        cases dflt with
        | false => simp [dumpsV] at hd
        | true =>
          simp [dumpsV] at hd
          subst hd
          have := jsonQuoteC_len (pyStrTimestamp t)
          have hs1 : sizeV (Value.time t) = 1 := rfl
          omega
      | list vs =>
        rw [dumpsV] at hd
        rw [sizeV] at hsz ⊢
        cases hL : dumpsL ind dflt (lvl + 1) vs with
        | none => rw [hL] at hd; simp at hd
        | some items =>
          rw [hL] at hd
          simp at hd
          subst hd
          have hB := ihL ind dflt (lvl + 1) vs items hL (by omega)
          have hk := dumpsL_length hL
          by_cases hemp : items.isEmpty
          · have hvs : vs = [] := by
              cases vs with
              | nil => rfl
              | cons a b =>
                rw [List.isEmpty_iff] at hemp
                subst hemp
                simp at hk
            subst hvs
            rw [renderCont, if_pos hemp]
            simp [sizeL]
          · rw [renderCont, if_neg hemp, renderSeq]
            have hjlen := joinItems_length (',' :: (wsParams ind (lvl + 1 - 1)).2.1) items
            simp only [List.length_cons, List.length_append]
            have hjlen2 := joinItems_length (',' :: (wsParams ind lvl).2.1) items
            have hmul : items.length - 1 ≤ (items.length - 1) * (',' :: (wsParams ind lvl).2.1).length := by
              have : 1 ≤ (',' :: (wsParams ind lvl).2.1).length := by simp
              calc items.length - 1 = (items.length - 1) * 1 := by omega
                _ ≤ (items.length - 1) * (',' :: (wsParams ind lvl).2.1).length :=
                    Nat.mul_le_mul_left _ this
            have hk1 : 1 ≤ items.length := by
              cases items with
              | nil => simp at hemp
              | cons a b => simp
            rw [hjlen2]
            rw [hk] at hmul hk1 ⊢
            omega
      | dict kvs =>
        rw [dumpsV] at hd
        rw [sizeV] at hsz ⊢
        cases hL : dumpsM ind dflt (lvl + 1) kvs with
        | none => rw [hL] at hd; simp at hd
        | some items =>
          rw [hL] at hd
          simp at hd
          subst hd
          have hB := ihM ind dflt (lvl + 1) kvs items hL (by omega)
          have hk := dumpsM_length hL
          by_cases hemp : items.isEmpty
          · have hkvs : kvs = [] := by
              cases kvs with
              | nil => rfl
              | cons a b =>
                rw [List.isEmpty_iff] at hemp
                subst hemp
                simp at hk
            subst hkvs
            rw [renderCont, if_pos hemp]
            simp [sizeM]
          · rw [renderCont, if_neg hemp, renderSeq]
            simp only [List.length_cons, List.length_append]
            have hjlen2 := joinItems_length (',' :: (wsParams ind lvl).2.1) items
            have hmul : items.length - 1 ≤ (items.length - 1) * (',' :: (wsParams ind lvl).2.1).length := by
              have : 1 ≤ (',' :: (wsParams ind lvl).2.1).length := by simp
              calc items.length - 1 = (items.length - 1) * 1 := by omega
                _ ≤ (items.length - 1) * (',' :: (wsParams ind lvl).2.1).length :=
                    Nat.mul_le_mul_left _ this
            have hk1 : 1 ≤ items.length := by
              cases items with
              | nil => simp at hemp
              | cons a b => simp
            rw [hjlen2]
            rw [hk] at hmul hk1 ⊢
            omega
    · intro ind dflt lvl elems outs hL hsz
      cases elems with
      | nil => rw [sizeL]; omega
      | cons v vs =>
        obtain ⟨o, os, hdV, hdL, rfl⟩ := dumpsL_cons_inv hL
        rw [sizeL] at hsz ⊢
        have hvpos := sizeV_pos v
        have hA := ihV ind dflt lvl v o hdV (by omega)
        have hB := ihL ind dflt lvl vs os hdL (by omega)
        have hsum : sumLen (o :: os) = o.length + sumLen os := by simp [sumLen]
        rw [hsum]
        simp only [List.length_cons]
        omega
    · intro ind dflt lvl kvs outs hM hsz
      cases kvs with
      | nil => rw [sizeM]; omega
      | cons kv kvs =>
        obtain ⟨o, os, hdV, hdM, rfl⟩ := dumpsM_cons_inv hM
        rw [sizeM] at hsz ⊢
        have hvpos := sizeV_pos kv.2
        have hA := ihV ind dflt lvl kv.2 o hdV (by omega)
        have hB := ihM ind dflt lvl kvs os hdM (by omega)
        have hsum : sumLen ((jsonQuoteC kv.1 ++ ':' :: ' ' :: o) :: os) =
            (jsonQuoteC kv.1).length + 2 + o.length + sumLen os := by
          simp [sumLen]
          omega
        rw [hsum]
        simp only [List.length_cons]
        omega

/-- Any `json.dumps` output string parses as a complete JSON document, and
the parsed value keeps the container shape and item count. -/
theorem parseJson_dumpsV {ind : Option Nat} {dflt : Bool} {lvl : Nat} {v : Value}
    {out : List Char} (hd : dumpsV ind dflt lvl v = some out) :
    ∃ w, parseJson (String.mk out) = some w ∧ shapeMatch v w := by
  have hlen := (dumpsLen (sizeV v)).1 ind dflt lvl v out hd (by omega)
  obtain ⟨w, hp, hsm⟩ := (parseDumps (2 * out.length + 2)).1 ind dflt lvl v out hd
    (by omega) [] [] isWsL_nil nonDigitHead_nil
  simp only [List.nil_append, List.append_nil] at hp
  refine ⟨w, ?_, hsm⟩
  have hdata : (String.mk out).data = out := rfl
  rw [parseJson, hdata, hp]
  simp [skipWs]

/-! ## Claim theorems -/

/-- C1: for every record list and every configuration whose format is not
one of the handled dispatch cases (CSV, JSON, JSONL, XML), the coordinator's
persistent-destination entry point returns a failed result (`success =
false`) carrying the descriptive error `"Unknown format"`, raises nothing
(the call returns normally, modelled by `some`), and writes nothing to the
destination (the written text is `""`). -/
theorem C1_unknown_format_failed_outcome :
    ∀ (ts : List Transformer) (cfg : ExportConfig) (data : List Record),
    cfg.format ≠ ExportFormat.csv → cfg.format ≠ ExportFormat.json →
    cfg.format ≠ ExportFormat.jsonl → cfg.format ≠ ExportFormat.xml →
    exportToFile ts cfg data =
      some ({ success := false, row_count := 0, byte_count := 0,
              error := some "Unknown format" }, "") := by
  intro ts cfg data h1 h2 h3 h4
  rw [exportToFile, if_neg h1, if_neg h2, if_neg h3, if_neg h4]

/-- C1 witness: the TSV format value is not dispatched, so a concrete TSV
export returns the failed result and writes nothing. -/
theorem C1_unknown_format_witness :
    exportToFile [] { defaultConfig with format := ExportFormat.tsv }
      [[("a", Value.int 1)]] =
      some ({ success := false, row_count := 0, byte_count := 0,
              error := some "Unknown format" }, "") :=
  C1_unknown_format_failed_outcome [] _ _ (by decide) (by decide) (by decide) (by decide)

/-- C4: the buffered delimited writer on an empty record list returns a
successful result with `row_count = 0` and writes no bytes at all — not
even a header — for every configuration (hence regardless of the
`include_header` flag and of the delimiter). -/
theorem C4_buffered_empty_no_output :
    ∀ cfg : ExportConfig,
    csvExport cfg [] =
      some ({ success := true, row_count := 0, byte_count := 0, error := none }, "") :=
  fun _ => rfl

/-- C9: an explicit empty column list behaves exactly as an absent one for
every writer: the Python `or`/truthiness idioms treat `[]` like `None`, so
column resolution, the delimited writer, the XML writer, and both JSON
writers produce identical results, and no zero-column output ever arises. -/
theorem C9_empty_columns_like_unset :
    ∀ (cfg : ExportConfig) (data : List Record),
    (∀ fb, pyOrCols (some []) fb = pyOrCols none fb) ∧
    resolveColumns { cfg with columns := some [] } data =
      resolveColumns { cfg with columns := none } data ∧
    csvExport { cfg with columns := some [] } data =
      csvExport { cfg with columns := none } data ∧
    (∀ root rowel, xmlExport { cfg with columns := some [] } root rowel data =
      xmlExport { cfg with columns := none } root rowel data) ∧
    (∀ pretty, jsonExport { cfg with columns := some [] } data pretty =
      jsonExport { cfg with columns := none } data pretty) ∧
    jsonlExport { cfg with columns := some [] } data =
      jsonlExport { cfg with columns := none } data :=
  fun _ _ => ⟨fun _ => rfl, rfl, rfl, fun _ _ => rfl, fun _ => rfl, rfl⟩

/-- C10: the streaming delimited writer with `include_header = true` writes
the header row (caller-supplied columns, configured labels) even for an
empty input sequence and returns success with `row_count = 0`; the buffered
variant, in contrast, writes no bytes for empty input. -/
theorem C10_stream_empty_writes_header :
    ∀ (cfg : ExportConfig) (cols : List String), cfg.include_header = true →
    csvExportStream cfg [] cols =
      some ({ success := true, row_count := 0, byte_count := 0, error := none },
        csvRow cfg.delimiter (cols.map (resolveLabel cfg))) ∧
    csvExport cfg [] =
      some ({ success := true, row_count := 0, byte_count := 0, error := none }, "") := by
  intro cfg cols h
  refine ⟨?_, rfl⟩
  rw [csvExportStream]
  simp [mapMO, h, String.join]

/-- C10 witness: a concrete streaming export of an empty sequence with two
columns writes exactly the header row. -/
theorem C10_stream_empty_witness :
    csvExportStream defaultConfig [] ["id", "name"] =
      some ({ success := true, row_count := 0, byte_count := 0, error := none },
        "id,name" ++ "\r\n") :=
  (C10_stream_empty_writes_header defaultConfig ["id", "name"] rfl).1

/-- C3 counterexample: with `columns` set to the explicit empty list and a
non-empty record list, column resolution does not yield "exactly that list"
(the empty list) — the Python `or` treats `[]` as falsy and falls back to
the first record's keys. -/
theorem C3_counterexample :
    resolveColumns { defaultConfig with columns := some [] } [[("id", Value.int 1)]] =
      ["id"] ∧ (["id"] : List String) ≠ [] :=
  ⟨rfl, by decide⟩

/-- C3 amended: if `config.columns` is set to a NON-EMPTY list, resolution
yields exactly that list in that order; if it is unset or set to the empty
list, the key order of the first record is used, and an empty record
sequence yields an empty column set; display labels come from
`config.column_labels`, falling back to the field name when no label is
mapped (or when no label mapping is configured). -/
theorem C3_column_resolution_amended :
    ∀ (cfg : ExportConfig) (data : List Record),
    (∀ cs, cfg.columns = some cs → cs ≠ [] → resolveColumns cfg data = cs) ∧
    ((cfg.columns = none ∨ cfg.columns = some []) →
      ∀ r tl, data = r :: tl → resolveColumns cfg data = recordKeys r) ∧
    ((cfg.columns = none ∨ cfg.columns = some []) → data = [] →
      resolveColumns cfg data = []) ∧
    (∀ c m lab, cfg.column_labels = some m → m.lookup c = some lab →
      resolveLabel cfg c = lab) ∧
    (∀ c m, cfg.column_labels = some m → m.lookup c = none →
      resolveLabel cfg c = c) ∧
    (cfg.column_labels = none → ∀ c, resolveLabel cfg c = c) := by
  intro cfg data
  refine ⟨?_, ?_, ?_, ?_, ?_, ?_⟩
  · intro cs h hne
    rw [resolveColumns.eq_def, h]
    cases cs with
    | nil => exact absurd rfl hne
    | cons a b => simp [pyOrCols]
  · intro h r tl hdata
    subst hdata
    rcases h with h | h <;> simp [resolveColumns, h, pyOrCols, recordKeys]
  · intro h hdata
    subst hdata
    rcases h with h | h <;> simp [resolveColumns, h, pyOrCols]
  · intro c m lab h hl
    simp [resolveLabel, h, hl]
  · intro c m h hl
    simp [resolveLabel, h, hl]
  · intro h c
    simp [resolveLabel, h]

/-- C3 witness: with a non-empty explicit column list the list is used
verbatim, a mapped label is applied, and an unmapped column falls back to
its field name. -/
theorem C3_column_resolution_witness :
    resolveColumns c5Cfg c5Data = ["name"] ∧
    resolveLabel c5Cfg "name" = "Name" ∧
    resolveLabel c5Cfg "other" = "other" := by
  have h := C3_column_resolution_amended c5Cfg c5Data
  exact ⟨h.1 ["name"] rfl (by decide), h.2.2.2.1 "name" [("name", "Name")] "Name" rfl rfl,
    h.2.2.2.2.1 "other" [("name", "Name")] rfl rfl⟩

/-- C5 counterexample: the in-memory CSV export of the §8 scenario input
terminates each row with CRLF (`"\r\n"`, the `csv` module's default
`excel` dialect line terminator), not with a bare newline, so the output is
not the three `"\n"`-terminated lines the claim describes. -/
theorem C5_counterexample :
    mExportCsv [] c5Data defaultConfig = some ("id,name\r\n1,Alice\r\n2,Bob\r\n") ∧
    "id,name\r\n1,Alice\r\n2,Bob\r\n" ≠ "id,name\n1,Alice\n2,Bob\n" :=
  ⟨rfl, by decide⟩

/-- C5 amended: the scenario outputs are exactly as claimed — header
`id,name` then rows `1,Alice` and `2,Bob` with comma delimiter, and with
`columns=["name"]`, `column_labels={"name": "Name"}` header `Name` then
`Alice` and `Bob` — except that each row is terminated by CRLF (`"\r\n"`),
the csv writer's default line terminator, rather than a bare newline. -/
theorem C5_csv_scenarios_amended :
    mExportCsv [] c5Data defaultConfig =
      some ("id,name" ++ "\r\n" ++ "1,Alice" ++ "\r\n" ++ "2,Bob" ++ "\r\n") ∧
    mExportCsv [] c5Data c5Cfg =
      some ("Name" ++ "\r\n" ++ "Alice" ++ "\r\n" ++ "Bob" ++ "\r\n") :=
  ⟨rfl, rfl⟩

/-- C6: the transform pipeline is the identity when no transformers are
registered; otherwise it maps each record in input order through every
transformer in registration order (so record order and count are
preserved); and because the pipeline runs before the writer, a field added
by a transformer appears in the CSV output when no explicit column list is
configured — the columns come from the post-transform first record. -/
theorem C6_transform_pipeline :
    (∀ data : List Record, mTransform [] data = data) ∧
    (∀ (ts : List Transformer) (data : List Record),
      mTransform ts data = data.map (applyTransformers ts)) ∧
    (∀ (ts : List Transformer) (data : List Record),
      (mTransform ts data).length = data.length) ∧
    (∀ (ts : List Transformer) (r : Record),
      applyTransformers ts r = ts.foldl (fun row t => t row) r) ∧
    mExportCsv [addFullName] c6Data defaultConfig =
      some ("first,last,full_name" ++ "\r\n" ++ "Ada,Lovelace,AdaLovelace" ++ "\r\n") := by
  refine ⟨fun data => rfl, ?_, ?_, fun ts r => rfl, rfl⟩
  · intro ts data
    rw [mTransform]
    by_cases hts : ts.isEmpty = true
    · rw [if_pos hts]
      rw [List.isEmpty_iff] at hts
      subst hts
      have hfn : applyTransformers ([] : List Transformer) = fun r => r := rfl
      rw [hfn]
      simp
    · rw [if_neg hts]
  · intro ts data
    by_cases hts : ts.isEmpty = true
    · rw [mTransform, if_pos hts]
    · rw [mTransform, if_neg hts]
      simp

/-- C2 counterexample: the formatter raises (`none`) on a list containing a
timestamp and on a mapping containing a timestamp — `json.dumps(value)` is
called without `default=`, so `TypeError` propagates instead of the claimed
compact JSON serialization. -/
theorem C2_counterexample :
    formatValue defaultConfig (Value.list [Value.time refTime]) = none ∧
    formatValue defaultConfig (Value.dict [("t", Value.time refTime)]) = none :=
  ⟨rfl, rfl⟩

/-- C2 amended: the formatter applies the claimed rules in the claimed
priority order — null to the configured null token, timestamp to the
configured `strftime` pattern, boolean to lowercase `true`/`false`, list or
mapping to its (`json.dumps`) serialization, anything else to its default
textual representation, never raising on unrecognized top-level types —
EXCEPT that a list or mapping is serialized by `json.dumps` without a
`default=` fallback, which succeeds exactly when no nested timestamp is
present and raises `TypeError` otherwise. -/
theorem C2_format_value_amended :
    ∀ cfg : ExportConfig,
    formatValue cfg Value.null = some cfg.null_value ∧
    (∀ t, formatValue cfg (Value.time t) = some (strftime cfg.date_format t)) ∧
    (∀ b, formatValue cfg (Value.bool b) = some (if b then "true" else "false")) ∧
    (∀ vs, formatValue cfg (Value.list vs) =
      (dumpsV none false 0 (Value.list vs)).map String.mk) ∧
    (∀ kvs, formatValue cfg (Value.dict kvs) =
      (dumpsV none false 0 (Value.dict kvs)).map String.mk) ∧
    (∀ vs, (formatValue cfg (Value.list vs)).isSome = !hasTimeL vs) ∧
    (∀ kvs, (formatValue cfg (Value.dict kvs)).isSome = !hasTimeM kvs) ∧
    (∀ n, formatValue cfg (Value.int n) = some (String.mk (intRepr n))) ∧
    (∀ s, formatValue cfg (Value.str s) = some s) := by
  intro cfg
  refine ⟨rfl, fun t => rfl, fun b => rfl, fun vs => rfl, fun kvs => rfl, ?_, ?_,
    fun n => rfl, fun s => rfl⟩
  · intro vs
    have h := (dumpsSome (sizeV (Value.list vs))).1 none false 0 (Value.list vs) le_rfl
    have h2 : hasTimeV (Value.list vs) = hasTimeL vs := rfl
    rw [h2] at h
    simp only [Bool.false_or] at h
    rw [show formatValue cfg (Value.list vs) =
      (dumpsV none false 0 (Value.list vs)).map String.mk from rfl]
    cases hd : dumpsV none false 0 (Value.list vs) <;> rw [hd] at h <;> simpa using h
  · intro kvs
    have h := (dumpsSome (sizeV (Value.dict kvs))).1 none false 0 (Value.dict kvs) le_rfl
    have h2 : hasTimeV (Value.dict kvs) = hasTimeM kvs := rfl
    rw [h2] at h
    simp only [Bool.false_or] at h
    rw [show formatValue cfg (Value.dict kvs) =
      (dumpsV none false 0 (Value.dict kvs)).map String.mk from rfl]
    cases hd : dumpsV none false 0 (Value.dict kvs) <;> rw [hd] at h <;> simpa using h

/-- C2 witness: at a concrete configuration the rules fire as amended — a
timestamp-free list serializes, a nested timestamp raises. -/
theorem C2_format_value_witness :
    (formatValue defaultConfig (Value.list [Value.int 1])).isSome = true ∧
    (formatValue defaultConfig (Value.list [Value.time refTime])).isSome = false ∧
    formatValue defaultConfig (Value.time refTime) =
      some (strftime defaultConfig.date_format refTime) := by
  have h := C2_format_value_amended defaultConfig
  refine ⟨?_, ?_, h.2.1 refTime⟩
  · rw [h.2.2.2.2.2.1 [Value.int 1]]
    rfl
  · rw [h.2.2.2.2.2.1 [Value.time refTime]]
    rfl

/-- `str.replace` with a one-character pattern maps each character
independently. -/
theorem replaceChar_eq_flatMap (p : Char) (r : List Char) :
    ∀ l : List Char, replaceChar p r l = l.flatMap (fun c => if c = p then r else [c]) := by
  intro l
  induction l with
  | nil => simp [replaceChar]
  | cons c t ih =>
    by_cases h : c = p <;> simp [replaceChar, h, ih]

/-- `str.replace` distributes over concatenation. -/
theorem replaceChar_append (p : Char) (r : List Char) :
    ∀ xs ys : List Char, replaceChar p r (xs ++ ys) = replaceChar p r xs ++ replaceChar p r ys := by
  intro xs ys
  induction xs with
  | nil => simp [replaceChar]
  | cons c t ih =>
    by_cases h : c = p <;> simp [replaceChar, h, ih]

/-- The sequential replaces of the source (`&` first, then `<`, then `>`)
amount to escaping each character of the original string independently: no
ampersand introduced by an earlier replacement is escaped again. -/
theorem escapeXml_chain : ∀ l : List Char,
    replaceChar '>' ("&gt;".data) (replaceChar '<' ("&lt;".data)
      (replaceChar '&' ("&amp;".data) l)) = l.flatMap escXmlChar := by
  intro l
  induction l with
  | nil => rfl
  | cons c t ih =>
    by_cases h1 : c = '&'
    · subst h1
      have s1 : replaceChar '&' ("&amp;".data) ('&' :: t) =
          "&amp;".data ++ replaceChar '&' ("&amp;".data) t := by
        rw [replaceChar]
        simp
      rw [s1, replaceChar_append, replaceChar_append]
      have c1 : replaceChar '<' ("&lt;".data) ("&amp;".data) = "&amp;".data := rfl
      rw [c1]
      have c2 : replaceChar '>' ("&gt;".data) ("&amp;".data) = "&amp;".data := rfl
      rw [c2, ih]
      simp [escXmlChar]
    · by_cases h2 : c = '<'
      · subst h2
        have s1 : replaceChar '&' ("&amp;".data) ('<' :: t) =
            '<' :: replaceChar '&' ("&amp;".data) t := by
          rw [replaceChar]
          simp
        have s2 : ∀ x, replaceChar '<' ("&lt;".data) ('<' :: x) =
            "&lt;".data ++ replaceChar '<' ("&lt;".data) x := by
          intro x
          rw [replaceChar]
          simp
        rw [s1, s2, replaceChar_append]
        have c1 : replaceChar '>' ("&gt;".data) ("&lt;".data) = "&lt;".data := rfl
        rw [c1, ih]
        simp [escXmlChar]
      · by_cases h3 : c = '>'
        · subst h3
          have s1 : replaceChar '&' ("&amp;".data) ('>' :: t) =
              '>' :: replaceChar '&' ("&amp;".data) t := by
            rw [replaceChar]
            simp
          have s2 : ∀ x, replaceChar '<' ("&lt;".data) ('>' :: x) =
              '>' :: replaceChar '<' ("&lt;".data) x := by
            intro x
            rw [replaceChar]
            simp
          have s3 : ∀ x, replaceChar '>' ("&gt;".data) ('>' :: x) =
              "&gt;".data ++ replaceChar '>' ("&gt;".data) x := by
            intro x
            rw [replaceChar]
            simp
          rw [s1, s2, s3, ih]
          simp [escXmlChar]
        · have s1 : replaceChar '&' ("&amp;".data) (c :: t) =
              c :: replaceChar '&' ("&amp;".data) t := by
            rw [replaceChar, if_neg h1]
          have s2 : ∀ x, replaceChar '<' ("&lt;".data) (c :: x) =
              c :: replaceChar '<' ("&lt;".data) x := by
            intro x
            rw [replaceChar, if_neg h2]
          have s3 : ∀ x, replaceChar '>' ("&gt;".data) (c :: x) =
              c :: replaceChar '>' ("&gt;".data) x := by
            intro x
            rw [replaceChar, if_neg h3]
          rw [s1, s2, s3, ih]
          simp [escXmlChar, h1, h2, h3]

/-- `mapMO` succeeds when every element succeeds. -/
theorem mapMO_isSome {f : α → Option β} : ∀ {l : List α},
    (∀ a ∈ l, (f a).isSome = true) → (mapMO f l).isSome = true := by
  intro l
  induction l with
  | nil => intro _; simp [mapMO]
  | cons a as ih =>
    intro h
    have ha := h a (by simp)
    rw [mapMO]
    cases hfa : f a with
    | none => rw [hfa] at ha; simp at ha
    | some b =>
      have has := ih (fun x hx => h x (by simp [hx]))
      cases hms : mapMO f as with
      | none => rw [hms] at has; simp at has
      | some bs => simp

/-- C8: the XML writer is independent of the configured display labels
(child elements are named by the field name, not the label); its text
escaping equals per-character escaping with `&` mapped to `&amp;`, `<` to
`&lt;` and `>` to `&gt;` (ampersand replaced first, so nothing is
double-escaped); the value `<b>&</b>` escapes to
`&lt;b&gt;&amp;&lt;/b&gt;`; and the document consists of the declaration,
the opening root tag, one row element per record, and the closing root tag
as the very last characters — ending in `>` with no trailing newline. -/
theorem C8_xml_writer :
    (∀ (cfg : ExportConfig) (root rowel : String) (data : List Record)
      (L : Option (List (String × String))),
      xmlExport { cfg with column_labels := L } root rowel data =
        xmlExport cfg root rowel data) ∧
    (∀ s, escapeXml s = specEscapeXml s) ∧
    (escXmlChar '&' = "&amp;".data ∧ escXmlChar '<' = "&lt;".data ∧
      escXmlChar '>' = "&gt;".data) ∧
    escapeXml "<b>&</b>" = "&lt;b&gt;&amp;&lt;/b&gt;" ∧
    (∀ (cfg : ExportConfig) (root rowel : String) (data : List Record)
      (res : ExportResult) (out : String),
      xmlExport cfg root rowel data = some (res, out) →
      ∃ rows, mapMO (xmlRowOut cfg rowel (resolveColumns cfg data)) data = some rows ∧
        rows.length = data.length ∧
        out = xmlDecl cfg ++ "<" ++ root ++ ">\n" ++ String.join rows ++
          "</" ++ root ++ ">" ∧
        out.data.getLast? = some '>' ∧ ('>' : Char) ≠ '\n') := by
  refine ⟨fun cfg root rowel data L => rfl, ?_, ⟨rfl, rfl, rfl⟩, rfl, ?_⟩
  · intro s
    rw [escapeXml, specEscapeXml, escapeXml_chain]
  · intro cfg root rowel data res out h
    rw [xmlExport] at h
    cases hrows : mapMO (xmlRowOut cfg rowel (resolveColumns cfg data)) data with
    | none => rw [hrows] at h; simp at h
    | some rows =>
      rw [hrows] at h
      simp at h
      refine ⟨rows, rfl, mapMO_length hrows, h.2.symm, ?_, by decide⟩
      rw [← h.2]
      have hdata : (xmlDecl cfg ++ "<" ++ root ++ ">\n" ++ String.join rows ++
          "</" ++ root ++ ">").data =
          ((xmlDecl cfg ++ "<" ++ root ++ ">\n" ++ String.join rows ++
            "</" ++ root).data) ++ ['>'] := rfl
      rw [hdata, List.getLast?_concat]

/-- C8 witness: a concrete XML export ends in the closing root tag's `>`
(no trailing newline) with one row element for the one record. -/
theorem C8_xml_writer_witness :
    ("<?xml version=\"1.0\" encoding=\"utf-8\"?>\n<data>\n  <row>\n    <x>&lt;b&gt;&amp;&lt;/b&gt;</x>\n  </row>\n</data>" : String).data.getLast? = some '>' := by
  obtain ⟨rows, _, _, _, hlast, _⟩ := C8_xml_writer.2.2.2.2 defaultConfig "data" "row" c8Data
    { success := true, row_count := 1, byte_count := 0, error := none }
    "<?xml version=\"1.0\" encoding=\"utf-8\"?>\n<data>\n  <row>\n    <x>&lt;b&gt;&amp;&lt;/b&gt;</x>\n  </row>\n</data>" rfl
  exact hlast

/-- C7: the JSON array writer always returns (never raises, thanks to
`default=str`) a successful result whose `row_count` is the number of input
records, and its output parses as a JSON array with exactly one element per
record; the JSON-lines writer likewise returns `row_count = len(R)` and its
output is exactly `len(R)` newline-terminated lines, each free of raw
newlines and independently parseable as a JSON object; column filtering
only ever removes fields from a record, never whole records. -/
theorem C7_json_writers :
    (∀ (cfg : ExportConfig) (data : List Record) (pretty : Bool)
      (res : ExportResult) (out : String),
      jsonExport cfg data pretty = some (res, out) →
      res.success = true ∧ res.row_count = data.length ∧
      ∃ vs, parseJson out = some (Value.list vs) ∧ vs.length = data.length) ∧
    (∀ cfg data pretty, (jsonExport cfg data pretty).isSome = true) ∧
    (∀ (cfg : ExportConfig) (data : List Record) (res : ExportResult) (out : String),
      jsonlExport cfg data = some (res, out) →
      res.success = true ∧ res.row_count = data.length ∧
      ∃ ls : List String, ls.length = data.length ∧
        out = String.join (ls.map (fun l => l ++ "\n")) ∧
        ∀ l ∈ ls, ('\n' ∉ l.data) ∧ ∃ kvs, parseJson l = some (Value.dict kvs)) ∧
    (∀ cfg data, (jsonlExport cfg data).isSome = true) ∧
    (∀ (cols : List String) (row : Record),
      (filterRowCols cols row).length ≤ row.length ∧
      ∀ kv ∈ filterRowCols cols row, kv ∈ row) ∧
    (∀ (cols : List String) (data : List Record),
      (data.map (filterRowCols cols)).length = data.length) := by
  refine ⟨?_, ?_, ?_, ?_, ?_, ?_⟩
  · intro cfg data pretty res out h
    rw [jsonExport] at h
    set F := (if pyTruthyCols cfg.columns then
      data.map (filterRowCols (cfg.columns.getD [])) else data) with hF
    have hFlen : F.length = data.length := by
      rw [hF]
      cases hpt : pyTruthyCols cfg.columns <;> simp
    cases hdump : dumpsV (if pretty then some 2 else none) true 0
        (Value.list (F.map Value.dict)) with
    | none =>
      have hs := (dumpsSome (sizeV (Value.list (F.map Value.dict)))).1
        (if pretty then some 2 else none) true 0 (Value.list (F.map Value.dict)) le_rfl
      rw [hdump] at hs
      simp at hs
    | some out0 =>
      rw [hdump] at h
      simp at h
      obtain ⟨hres, hout⟩ := h
      obtain ⟨w, hp, hsm⟩ := parseJson_dumpsV hdump
      obtain ⟨ws, hws, hwlen⟩ := hsm.1 (F.map Value.dict) rfl
      subst hws
      refine ⟨by rw [← hres], by rw [← hres], ws, ?_, ?_⟩
      · rw [← hout]
        exact hp
      · rw [hwlen]
        simp [hFlen]
  · intro cfg data pretty
    rw [jsonExport]
    cases hdump : dumpsV (if pretty then some 2 else none) true 0
        (Value.list ((if pyTruthyCols cfg.columns then
          data.map (filterRowCols (cfg.columns.getD [])) else data).map Value.dict)) with
    | none =>
      have hs := (dumpsSome (sizeV (Value.list ((if pyTruthyCols cfg.columns then
        data.map (filterRowCols (cfg.columns.getD [])) else data).map Value.dict)))).1
        (if pretty then some 2 else none) true 0 _ le_rfl
      rw [hdump] at hs
      simp at hs
    | some out0 => simp
  · intro cfg data res out h
    rw [jsonlExport] at h
    cases hrows : mapMO (fun r => dumpsV none true 0 (Value.dict
        (if pyTruthyCols cfg.columns then filterRowCols (cfg.columns.getD []) r else r)))
        data with
    | none => rw [hrows] at h; simp at h
    | some rows =>
      rw [hrows] at h
      simp at h
      obtain ⟨hres, hout⟩ := h
      refine ⟨by rw [← hres], by rw [← hres], rows.map String.mk, ?_, ?_, ?_⟩
      · simp [mapMO_length hrows]
      · rw [← hout]
        simp
        rfl
      · intro l hl
        simp only [List.mem_map] at hl
        obtain ⟨cs, hcs, rfl⟩ := hl
        obtain ⟨r, _, hr⟩ := mapMO_mem hrows cs hcs
        constructor
        · exact (dumpsNoNl (sizeV (Value.dict
            (if pyTruthyCols cfg.columns then filterRowCols (cfg.columns.getD []) r else r)))).1
            true 0 _ cs hr le_rfl
        · obtain ⟨w, hp, hsm⟩ := parseJson_dumpsV hr
          obtain ⟨ws, hws, _⟩ := hsm.2 _ rfl
          exact ⟨ws, by rw [← hws]; exact hp⟩
  · intro cfg data
    rw [jsonlExport]
    have hall : ∀ r ∈ data, (dumpsV none true 0 (Value.dict
        (if pyTruthyCols cfg.columns then filterRowCols (cfg.columns.getD []) r else r))).isSome = true := by
      intro r _
      have hs := (dumpsSome (sizeV (Value.dict
        (if pyTruthyCols cfg.columns then filterRowCols (cfg.columns.getD []) r else r)))).1
        none true 0 _ le_rfl
      simp at hs
      exact hs
    have := mapMO_isSome hall
    cases hrows : mapMO (fun r => dumpsV none true 0 (Value.dict
        (if pyTruthyCols cfg.columns then filterRowCols (cfg.columns.getD []) r else r)))
        data with
    | none => rw [hrows] at this; simp at this
    | some rows => simp
  · intro cols row
    exact ⟨List.length_filter_le _ _, fun kv hkv => List.mem_of_mem_filter hkv⟩
  · intro cols data
    simp

/-- C7 witness: the concrete compact export of one record parses back as a
one-element JSON array, and the concrete JSONL export yields one
newline-terminated parseable object line. -/
theorem C7_json_writers_witness :
    (∃ vs, parseJson (String.mk ('[' :: lbChar :: '"' :: 'a' :: '"' :: ':' :: ' ' :: '1' ::
      rbChar :: ']' :: [])) = some (Value.list vs) ∧ vs.length = 1) ∧
    (∃ ls : List String, ls.length = 1 ∧
      String.mk (lbChar :: '"' :: 'a' :: '"' :: ':' :: ' ' :: '1' :: rbChar :: []) ++ "\n" =
        String.join (ls.map (fun l => l ++ "\n"))) := by
  constructor
  · have h := C7_json_writers.1 defaultConfig c7Data false
      { success := true, row_count := 1, byte_count := 0, error := none }
      (String.mk ('[' :: lbChar :: '"' :: 'a' :: '"' :: ':' :: ' ' :: '1' ::
        rbChar :: ']' :: [])) rfl
    exact h.2.2
  · have h := C7_json_writers.2.2.1 defaultConfig c7Data
      { success := true, row_count := 1, byte_count := 0, error := none }
      (String.mk (lbChar :: '"' :: 'a' :: '"' :: ':' :: ' ' :: '1' :: rbChar :: []) ++ "\n") rfl
    obtain ⟨ls, hlen, hout, _⟩ := h.2.2
    exact ⟨ls, hlen, hout⟩
